import Mathlib

/-!
Verification of the country-import / region-stats service.

A shallow embedding, in Lean 4, of the core logic of the Django project
`my-dcr-django-test`:

* `countries/validators.py` — `CountryRowForm` field cleaning (`clean_alpha2Code`,
  `clean_alpha3Code`, `clean_topLevelDomain`, `clean_capital`) and
  `StatsQueryForm` / `parse_stats_query`;
* `countries/services/data_validator.py` — `DataValidator.validate_row`;
* `countries/services/database_manager.py` — `DatabaseManager` bulk operations;
* `countries/management/commands/update_country_listing.py` — `Command.process_records`;
* `countries/services/api_client.py` — `APIClient.fetch_data` with its retry policy;
* `countries/services/region_stats.py`, `countries/helper.py`, `countries/views.py` —
  the aggregation / pagination / caching read path.

Machine integers are modelled as `Int`/`Nat` (Python integers are unbounded; the
only bounded one is the `BigIntegerField` column, checked explicitly against
`2^63`).  Fallible code returns `Option`/`Except`.  Mutable state (the database,
the in-memory caches, the pending bulk queues) is passed explicitly.
-/

/-! ## Python string helpers -/

/-- The characters stripped by Python's `str.strip()`. -/
def isPyWs (c : Char) : Bool :=
  c = ' ' || c = '\t' || c = '\n' || c = '\r' || c = '\x0b' || c = '\x0c'

/-- Python `str.strip()` on a character list. -/
def pyStripChars (l : List Char) : List Char :=
  ((l.dropWhile isPyWs).reverse.dropWhile isPyWs).reverse

/-- Python `str.strip()`. -/
def pyStrip (s : String) : String := String.mk (pyStripChars s.data)

/-- Python `str.upper()` (the repository only feeds it ASCII ISO codes). -/
def pyUpper (s : String) : String := String.mk (s.data.map Char.toUpper)

/-! ## A small model of `json.dumps`

`validate_row` re-encodes the raw `topLevelDomain` value with `json.dumps`
(default separators `", "`) and `clean_topLevelDomain` re-encodes the surviving
entries compactly (`separators=(",", ":")`).  The feed values that reach these
calls are lists of strings/numbers, or plain strings, so the encoder is
modelled for exactly those shapes. -/

def hexDigitChar (n : Nat) : Char :=
  if n < 10 then Char.ofNat ('0'.toNat + n) else Char.ofNat ('a'.toNat + n - 10)

def hex4 (n : Nat) : List Char :=
  [hexDigitChar (n / 4096 % 16), hexDigitChar (n / 256 % 16),
   hexDigitChar (n / 16 % 16), hexDigitChar (n % 16)]

/-- `json.dumps` escaping of one character (`ensure_ascii=True` default). -/
def jsonEscapeChar (c : Char) : List Char :=
  if c = '"' then ['\\', '"']
  else if c = '\\' then ['\\', '\\']
  else if c = '\n' then ['\\', 'n']
  else if c = '\t' then ['\\', 't']
  else if c = '\r' then ['\\', 'r']
  else if c = '\x08' then ['\\', 'b']
  else if c = '\x0c' then ['\\', 'f']
  else if c.toNat < 0x20 then '\\' :: 'u' :: hex4 c.toNat
  else if c.toNat < 0x7f then [c]
  else if c.toNat < 0x10000 then '\\' :: 'u' :: hex4 c.toNat
  else
    let v := c.toNat - 0x10000
    '\\' :: 'u' :: hex4 (0xd800 + v / 0x400) ++ '\\' :: 'u' :: hex4 (0xdc00 + v % 0x400)

/-- `json.dumps` of a Python string. -/
def jsonDumpsString (s : String) : String :=
  String.mk ('"' :: (s.data.map jsonEscapeChar).flatten ++ ['"'])

/-- One entry of a raw `topLevelDomain` list: the feed (and the repository's own
tests) contain strings and numbers; every non-string entry takes the same
dropped-with-a-warning path in `clean_topLevelDomain`, so numbers stand in for
all non-string JSON values. -/
inductive TldEntry where
  | str (s : String)
  | num (n : Int)
deriving DecidableEq

/-- The raw `topLevelDomain` value of a row: a native JSON list, or a plain
string (e.g. an already-JSON-encoded array). -/
inductive TldInput where
  | list (xs : List TldEntry)
  | str (s : String)
deriving DecidableEq

def jsonDumpsEntry : TldEntry → String
  | .str s => jsonDumpsString s
  | .num n => toString n

def joinSep (sep : String) : List String → String
  | [] => ""
  | [x] => x
  | x :: y :: xs => x ++ sep ++ joinSep sep (y :: xs)

/-- `json.dumps(value)` with Python's default `", "` item separator, as used on
`row.get("topLevelDomain", [])` in `DataValidator.validate_row`. -/
def jsonDumpsTldInput : TldInput → String
  | .list xs => "[" ++ joinSep ", " (xs.map jsonDumpsEntry) ++ "]"
  | .str s => jsonDumpsString s

/-- `json.dumps(cleaned, separators=(",", ":"))` — the compact stored
representation produced by `clean_topLevelDomain`. -/
def jsonDumpsCompactStrings (xs : List String) : String :=
  "[" ++ joinSep "," (xs.map jsonDumpsString) ++ "]"

/-! ## `CountryRowForm` (validators.py) composed with
`DataValidator.validate_row` (data_validator.py) -/

/-- A raw feed row.  `none` models an absent key (`row.get(key, default)`); the
values the feed carries at each key are strings (name/region/codes/capital),
an integer population, and a list-or-string `topLevelDomain`. -/
structure RawRow where
  name : Option String := none
  region : Option String := none
  alpha2Code : Option String := none
  alpha3Code : Option String := none
  population : Option Int := none
  topLevelDomain : Option TldInput := none
  capital : Option String := none
deriving DecidableEq

/-- The dict returned by `DataValidator.validate_row` on success. -/
structure CleanedRow where
  name : String
  region : String
  alpha2Code : String
  alpha3Code : String
  population : Int
  topLevelDomain : String
  capital : Option String
deriving DecidableEq

/-- Django `forms.CharField(strip=True, min_length, max_length)` cleaning:
strip, then the required check on the empty value, then the length validators
(validators only run on non-empty values; a non-required empty field yields
`""`). -/
def cleanCharField (v : String) (required : Bool) (minLen maxLen : Nat) : Option String :=
  let v := pyStrip v
  if v.isEmpty then
    if required then none else some ""
  else if v.length < minLen || maxLen < v.length then none
  else some v

/-- Character class of the TLD pattern body `[A-Za-z0-9-]`. -/
def tldBodyChar (c : Char) : Bool := c.isAlpha || c.isDigit || c = '-'

/-- `re.match(r"^\.[A-Za-z0-9-]{2,}$", s)` on an already-stripped string (the
string has no trailing newline, so `$` is plain end-of-string). -/
def tldMatch (s : String) : Bool :=
  match s.data with
  | '.' :: rest => decide (2 ≤ rest.length) && rest.all tldBodyChar
  | _ => false

/-- The entry filter of `clean_topLevelDomain`: non-strings are dropped,
entries are stripped, empty or non-matching entries are dropped, survivors are
kept (stripped) in order. -/
def clean_topLevelDomain_entries (xs : List TldEntry) : List String :=
  xs.filterMap fun e =>
    match e with
    | .num _ => none
    | .str t =>
      let t := pyStrip t
      if t.isEmpty then none
      else if tldMatch t then some t
      else none

/-- `DataValidator.validate_row` composed with `CountryRowForm`.

* The `REQUIRED_KEYS` check of `data_validator.py` (name, region, alpha2Code,
  alpha3Code, population).
* `form_data` uses `row.get(key, default)`: absent `topLevelDomain` becomes
  `json.dumps([]) = "[]"`, absent `capital` becomes `""`.
* `CountryRowForm` field cleaning in declared order; the row is valid iff every
  field validates (error-collection order is immaterial to validity).
* `clean_topLevelDomain` does `json.loads` of the field string, which is
  `json.dumps` of the raw value: the round-trip returns the raw value itself,
  so the embedding matches on the raw value directly.  A raw *string* value is
  dumped to a JSON string literal and parses back to a string, never a list,
  so it hits the `"topLevelDomain must be a list."` branch.
* `clean_capital` maps a falsy (empty) value to `None`.

Returns `none` where the Python raises `CountryDataValidationError`. -/
def validate_row (row : RawRow) : Option CleanedRow :=
  match row.name, row.region, row.alpha2Code, row.alpha3Code, row.population with
  | some nameRaw, some regionRaw, some a2Raw, some a3Raw, some pop =>
    match cleanCharField nameRaw true 1 200, cleanCharField regionRaw true 1 100,
          cleanCharField a2Raw true 2 2, cleanCharField a3Raw true 3 3 with
    | some name, some region, some a2, some a3 =>
      if pop < 0 then none
      else
        let tldInput := row.topLevelDomain.getD (TldInput.list [])
        -- CharField(max_length=2000, required=True) on the dumped string
        let tldStr := pyStrip (jsonDumpsTldInput tldInput)
        if tldStr.isEmpty then none
        else if 2000 < tldStr.length then none
        else
          match tldInput with
          | .str _ => none
          | .list xs =>
            -- capital: CharField(required=False, max_length=100, strip=True)
            let capRaw := pyStrip (row.capital.getD "")
            if 100 < capRaw.length then none
            else
              some { name := name, region := region,
                     alpha2Code := pyUpper a2, alpha3Code := pyUpper a3,
                     population := pop,
                     topLevelDomain := jsonDumpsCompactStrings (clean_topLevelDomain_entries xs),
                     capital := if capRaw.isEmpty then none else some capRaw }
    | _, _, _, _ => none
  | _, _, _, _, _ => none

example :
    validate_row { name := some "Wonderland", region := some "Fiction",
                   alpha2Code := some "wl", alpha3Code := some "wnl",
                   population := some 123456,
                   topLevelDomain := some (.list [.str ".wl"]),
                   capital := some "Heart City" } =
    some { name := "Wonderland", region := "Fiction", alpha2Code := "WL",
           alpha3Code := "WNL", population := 123456,
           topLevelDomain := "[\".wl\"]", capital := some "Heart City" } := by
  decide

/-! ## The data model (models.py) and store

`Region` identity is its unique name; in the embedding a country's `region`
foreign key is represented by the region's name (names are unique, and within
one run the in-memory caches always hand back the one instance per name, so
Django's pk/identity equality on the `region` attribute coincides with name
equality). -/

/-- A `Country` row (models.py). `topLevelDomain` is the JSON-encoded string
column; `capital` is nullable. -/
structure Country where
  name : String
  alpha2Code : String
  alpha3Code : String
  population : Int
  topLevelDomain : String
  capital : Option String
  region : String
deriving DecidableEq

/-- The persistent store: all `Region` rows (by name) and all `Country` rows. -/
structure Store where
  regions : List String
  countries : List Country
deriving DecidableEq

/-- Name-keyed lookup (country names are unique). -/
def findByName (cs : List Country) (n : String) : Option Country :=
  cs.find? fun c => c.name == n

/-- Replace the (unique) country named `n` by `v` — the in-place mutation of a
shared model instance, seen through the name-keyed cache. -/
def updateByName (cs : List Country) (n : String) (v : Country) : List Country :=
  cs.map fun c => if c.name == n then v else c

/-- The `desired` dict built in `process_records`, as a `Country` instance. -/
def toCountry (c : CleanedRow) : Country :=
  { name := c.name, alpha2Code := c.alpha2Code, alpha3Code := c.alpha3Code,
    population := c.population, topLevelDomain := c.topLevelDomain,
    capital := c.capital, region := c.region }

/-- `Country.full_clean()` for a new instance: the model validators of
models.py — `CharField` lengths, `alpha2Code`/`alpha3Code` `[A-Z]{2}`/`[A-Z]{3}`
regexes, the `BigIntegerField` range.  Uniqueness checks against the live
database are not modelled (no claim under check exercises them). -/
def full_clean_country (c : Country) : Bool :=
  decide (0 < c.name.length) && decide (c.name.length ≤ 100) &&
  decide (c.alpha2Code.length = 2) && c.alpha2Code.data.all Char.isUpper &&
  decide (c.alpha3Code.length = 3) && c.alpha3Code.data.all Char.isUpper &&
  decide (-(2 ^ 63) ≤ c.population) && decide (c.population < 2 ^ 63) &&
  (match c.capital with | none => true | some s => decide (s.length ≤ 100)) &&
  decide (0 < c.region.length) && decide (c.region.length ≤ 100)

/-! ## `DatabaseManager` (database_manager.py) -/

/-- `DatabaseManager.reset_database()`: delete all `Country` rows, then all
`Region` rows. -/
def reset_database (_s : Store) : Store := { regions := [], countries := [] }

/-- `DatabaseManager.bulk_create_countries`: returns the would-be/actual count
(`len(countries)`, or `0` for an empty list) and the store — unchanged in
dry-run, extended by `Country.objects.bulk_create` otherwise. -/
def bulk_create_countries (countries : List Country) (dry_run : Bool) (s : Store) :
    Nat × Store :=
  if countries.isEmpty then (0, s)
  else if dry_run then (countries.length, s)
  else (countries.length, { s with countries := s.countries ++ countries })

/-- `DatabaseManager.bulk_update_countries`: returns `len(countries)` (or `0`)
and, when not dry-run, rewrites each matching stored row's mutable field set —
rows are matched by identity (pk), which the name determines uniquely. -/
def bulk_update_countries (countries : List Country) (dry_run : Bool) (s : Store) :
    Nat × Store :=
  if countries.isEmpty then (0, s)
  else if dry_run then (countries.length, s)
  else (countries.length,
        { s with countries :=
            s.countries.map fun c => (countries.find? fun u => u.name == c.name).getD c })

/-! ## `Command.process_records` (update_country_listing.py)

The run state carries the store, the two preload caches, the two pending
queues and the three counters.  The Python queues hold the *same objects* as
`countries_by_name` (the cache entry is assigned once and only ever mutated in
place), so the embedding queues names and resolves them through the cache at
flush time — exactly the reference semantics of the source. -/

structure RunState where
  store : Store
  region_names : List String        -- regions_by_name (preloaded, grown in-run)
  countries_by_name : List Country  -- preloaded cache, kept consistent in-run
  to_create : List String           -- names pending bulk_create
  to_update : List String           -- names pending bulk_update
  created : Nat
  updated : Nat
  skipped : Nat
deriving DecidableEq

/-- `DatabaseManager.get_or_create_region`: cache hit returns the cached
instance; otherwise a new `Region(name=name)` is constructed, saved unless
`dry_run`, and inserted into the cache.  `region.full_clean()` cannot fail
here: the form guarantees a stripped, non-empty name of at most 100
characters, and the cache was preloaded with every persisted region, so the
`CountryDataValidationError` branch is unreachable. -/
def get_or_create_region (name : String) (dry_run : Bool) (st : RunState) : RunState :=
  if name ∈ st.region_names then st
  else
    { st with
      region_names := st.region_names ++ [name],
      store := if dry_run then st.store
               else { st.store with regions := st.store.regions ++ [name] } }

/-- Flush the pending-create queue: `created_count +=
bulk_create_countries(to_create, ...) - len(to_create)`, clear the queue. -/
def flushCreate (dry_run : Bool) (st : RunState) : RunState :=
  let pending := st.to_create.filterMap (findByName st.countries_by_name)
  let r := bulk_create_countries pending dry_run st.store
  { st with store := r.2, created := st.created + r.1 - st.to_create.length,
            to_create := [] }

/-- Flush the pending-update queue: `updated_count +=
bulk_update_countries(to_update, ...) - len(to_update)`, clear the queue. -/
def flushUpdate (dry_run : Bool) (st : RunState) : RunState :=
  let pending := st.to_update.filterMap (findByName st.countries_by_name)
  let r := bulk_update_countries pending dry_run st.store
  { st with store := r.2, updated := st.updated + r.1 - st.to_update.length,
            to_update := [] }

/-- The comparison of the six mutable fields against the `desired` dict. -/
def fieldsChanged (existing desired : Country) : Bool :=
  existing.alpha2Code != desired.alpha2Code ||
  existing.alpha3Code != desired.alpha3Code ||
  existing.population != desired.population ||
  existing.topLevelDomain != desired.topLevelDomain ||
  existing.capital != desired.capital ||
  existing.region != desired.region

/-- Enqueue a new country: `to_create.append(country)`,
`countries_by_name[name] = country`, `created_count += 1`. -/
def enqueueCreate (cleaned : CleanedRow) (st : RunState) : RunState :=
  { st with to_create := st.to_create ++ [cleaned.name],
            countries_by_name := toCountry cleaned :: st.countries_by_name,
            created := st.created + 1 }

/-- Enqueue a changed country: the cached instance has been mutated to the
desired values, `to_update.append(existing)`, `updated_count += 1`. -/
def enqueueUpdate (cleaned : CleanedRow) (st : RunState) : RunState :=
  { st with countries_by_name := updateByName st.countries_by_name cleaned.name (toCountry cleaned),
            to_update := st.to_update ++ [cleaned.name],
            updated := st.updated + 1 }

/-- The create/update/skip decision on one validated row (the part of the loop
body after region resolution). -/
def countryStep (batch_size : Nat) (dry_run : Bool) (cleaned : CleanedRow)
    (st : RunState) : RunState :=
  match findByName st.countries_by_name cleaned.name with
  | none =>
    -- new country: full_clean, enqueue, cache, count, maybe flush
    if full_clean_country (toCountry cleaned) then
      let st := enqueueCreate cleaned st
      if batch_size ≤ st.to_create.length then flushCreate dry_run st else st
    else { st with skipped := st.skipped + 1 }
  | some existing =>
    -- compare mutable fields, mutating the cached instance if any differs
    if fieldsChanged existing (toCountry cleaned) then
      let st := enqueueUpdate cleaned st
      if batch_size ≤ st.to_update.length then flushUpdate dry_run st else st
    else { st with skipped := st.skipped + 1 }

/-- The per-row body of the `for idx, row in iterator:` loop of
`process_records`. -/
def processRow (batch_size : Nat) (dry_run : Bool) (st : RunState) (row : RawRow) :
    RunState :=
  match validate_row row with
  | none => { st with skipped := st.skipped + 1 }   -- CountryDataValidationError
  | some cleaned =>
    countryStep batch_size dry_run cleaned (get_or_create_region cleaned.region dry_run st)

/-- The tail flushes after the loop (`if to_create:` then `if to_update:`). -/
def finalize (dry_run : Bool) (st : RunState) : RunState :=
  let st := if st.to_create.isEmpty then st else flushCreate dry_run st
  if st.to_update.isEmpty then st else flushUpdate dry_run st

/-- `Command.process_records(data, batch_size, dry_run, reset, …)`:
optional reset (executed only when not dry-run), preload of both name caches,
the row loop, the tail flushes.  Returns
`((created_count, updated_count, skipped_count), store)`. -/
def process_records (data : List RawRow) (batch_size : Nat) (dry_run reset : Bool)
    (store : Store) : (Nat × Nat × Nat) × Store :=
  let store := if reset && !dry_run then reset_database store else store
  let st0 : RunState :=
    { store := store, region_names := store.regions,
      countries_by_name := store.countries,
      to_create := [], to_update := [], created := 0, updated := 0, skipped := 0 }
  let st := finalize dry_run (data.foldl (processRow batch_size dry_run) st0)
  ((st.created, st.updated, st.skipped), st.store)

/-! ## Basic facts about the run state

`queuesResolvable` is the key structural invariant of `process_records`: every
queued name is present in the `countries_by_name` cache (the Python queues hold
the cached objects themselves).  It makes every flush count-neutral, since
`bulk_create_countries`/`bulk_update_countries` return exactly the length of
the list they were handed. -/

def queuesResolvable (st : RunState) : Prop :=
  (∀ n ∈ st.to_create, (findByName st.countries_by_name n).isSome = true) ∧
  (∀ n ∈ st.to_update, (findByName st.countries_by_name n).isSome = true)

/-- The flush-invisible observables of a run state: the three counters and the
two in-memory caches.  Decisions and counts depend only on these. -/
def obs (st : RunState) : (Nat × Nat × Nat) × List String × List Country :=
  ((st.created, st.updated, st.skipped), st.region_names, st.countries_by_name)

def countSum (st : RunState) : Nat := st.created + st.updated + st.skipped

theorem length_filterMap_of_isSome {α β : Type} (f : α → Option β) :
    ∀ l : List α, (∀ a ∈ l, (f a).isSome = true) → (l.filterMap f).length = l.length := by
  intro l
  induction l with
  | nil => intro _; rfl
  | cons a t ih =>
    intro h
    have ha := h a (List.mem_cons_self a t)
    rcases hfa : f a with _ | b
    · rw [hfa] at ha; simp at ha
    · rw [List.filterMap_cons, hfa, List.length_cons, List.length_cons,
          ih fun x hx => h x (List.mem_cons_of_mem a hx)]

theorem bulk_create_countries_fst (cs : List Country) (d : Bool) (s : Store) :
    (bulk_create_countries cs d s).1 = cs.length := by
  unfold bulk_create_countries
  rcases cs with _ | ⟨c, t⟩ <;> rcases d <;> simp

theorem bulk_update_countries_fst (cs : List Country) (d : Bool) (s : Store) :
    (bulk_update_countries cs d s).1 = cs.length := by
  unfold bulk_update_countries
  rcases cs with _ | ⟨c, t⟩ <;> rcases d <;> simp

theorem findByName_some_name {cs : List Country} {n : String} {c : Country}
    (h : findByName cs n = some c) : c.name = n := by
  have := List.find?_some h
  simpa using this

theorem findByName_cons (c : Country) (cs : List Country) (n : String) :
    findByName (c :: cs) n = if c.name = n then some c else findByName cs n := by
  rcases hc : (c.name == n) with _ | _ <;>
    simp_all [findByName, List.find?_cons, hc]

theorem findByName_cons_isSome {cs : List Country} {m : String} (c : Country)
    (h : (findByName cs m).isSome = true) : (findByName (c :: cs) m).isSome = true := by
  rw [findByName_cons]
  split <;> simp_all

theorem findByName_updateByName (cs : List Country) (n : String) (v : Country)
    (hv : v.name = n) (m : String) :
    findByName (updateByName cs n v) m =
      if m = n then (findByName cs n).map (fun _ => v) else findByName cs m := by
  induction cs with
  | nil => simp [updateByName, findByName]
  | cons c t ih =>
    simp only [updateByName, List.map_cons] at ih ⊢
    by_cases hcn : c.name = n <;> by_cases hmn : m = n
    · subst hmn
      rw [if_pos (by simp [hcn]), findByName_cons, findByName_cons]
      simp [hv, hcn]
    · have h1 : ¬v.name = m := fun h => hmn (hv.symm.trans h).symm
      have h2 : ¬c.name = m := fun h => hmn (hcn.symm.trans h).symm
      rw [if_pos (by simp [hcn]), findByName_cons, findByName_cons, ih]
      simp [findByName_cons, h1, h2, hmn]
    · subst hmn
      rw [if_neg (by simp [hcn]), findByName_cons, findByName_cons, ih]
      simp [hcn]
    · rw [if_neg (by simp [hcn]), findByName_cons, findByName_cons, ih]
      simp [findByName_cons, hmn]

/-! ### Field-level facts about the step components -/

@[simp] theorem gocr_countries (n : String) (d : Bool) (st : RunState) :
    (get_or_create_region n d st).countries_by_name = st.countries_by_name := by
  unfold get_or_create_region; split <;> rfl

@[simp] theorem gocr_to_create (n : String) (d : Bool) (st : RunState) :
    (get_or_create_region n d st).to_create = st.to_create := by
  unfold get_or_create_region; split <;> rfl

@[simp] theorem gocr_to_update (n : String) (d : Bool) (st : RunState) :
    (get_or_create_region n d st).to_update = st.to_update := by
  unfold get_or_create_region; split <;> rfl

@[simp] theorem gocr_created (n : String) (d : Bool) (st : RunState) :
    (get_or_create_region n d st).created = st.created := by
  unfold get_or_create_region; split <;> rfl

@[simp] theorem gocr_updated (n : String) (d : Bool) (st : RunState) :
    (get_or_create_region n d st).updated = st.updated := by
  unfold get_or_create_region; split <;> rfl

@[simp] theorem gocr_skipped (n : String) (d : Bool) (st : RunState) :
    (get_or_create_region n d st).skipped = st.skipped := by
  unfold get_or_create_region; split <;> rfl

theorem gocr_region_names (n : String) (d : Bool) (st : RunState) :
    (get_or_create_region n d st).region_names =
      if n ∈ st.region_names then st.region_names else st.region_names ++ [n] := by
  unfold get_or_create_region; split <;> simp_all

theorem gocr_store_dry (n : String) (st : RunState) :
    (get_or_create_region n true st).store = st.store := by
  unfold get_or_create_region; split <;> rfl

@[simp] theorem flushCreate_updated (d : Bool) (st : RunState) :
    (flushCreate d st).updated = st.updated := rfl
@[simp] theorem flushCreate_skipped (d : Bool) (st : RunState) :
    (flushCreate d st).skipped = st.skipped := rfl
@[simp] theorem flushCreate_region_names (d : Bool) (st : RunState) :
    (flushCreate d st).region_names = st.region_names := rfl
@[simp] theorem flushCreate_countries (d : Bool) (st : RunState) :
    (flushCreate d st).countries_by_name = st.countries_by_name := rfl
@[simp] theorem flushCreate_to_create (d : Bool) (st : RunState) :
    (flushCreate d st).to_create = [] := rfl
@[simp] theorem flushCreate_to_update (d : Bool) (st : RunState) :
    (flushCreate d st).to_update = st.to_update := rfl

/-- A flush is count-neutral: `bulk_create_countries` returns exactly
`len(to_create)`, so `created_count += ret - len(to_create)` adds zero. -/
theorem flushCreate_created (d : Bool) (st : RunState)
    (h : ∀ n ∈ st.to_create, (findByName st.countries_by_name n).isSome = true) :
    (flushCreate d st).created = st.created := by
  show st.created + (bulk_create_countries _ d st.store).1 - st.to_create.length = _
  rw [bulk_create_countries_fst, length_filterMap_of_isSome _ _ h, Nat.add_sub_cancel]

@[simp] theorem flushUpdate_created (d : Bool) (st : RunState) :
    (flushUpdate d st).created = st.created := rfl
@[simp] theorem flushUpdate_skipped (d : Bool) (st : RunState) :
    (flushUpdate d st).skipped = st.skipped := rfl
@[simp] theorem flushUpdate_region_names (d : Bool) (st : RunState) :
    (flushUpdate d st).region_names = st.region_names := rfl
@[simp] theorem flushUpdate_countries (d : Bool) (st : RunState) :
    (flushUpdate d st).countries_by_name = st.countries_by_name := rfl
@[simp] theorem flushUpdate_to_update (d : Bool) (st : RunState) :
    (flushUpdate d st).to_update = [] := rfl
@[simp] theorem flushUpdate_to_create (d : Bool) (st : RunState) :
    (flushUpdate d st).to_create = st.to_create := rfl

/-- The update flush is likewise count-neutral. -/
theorem flushUpdate_updated (d : Bool) (st : RunState)
    (h : ∀ n ∈ st.to_update, (findByName st.countries_by_name n).isSome = true) :
    (flushUpdate d st).updated = st.updated := by
  show st.updated + (bulk_update_countries _ d st.store).1 - st.to_update.length = _
  rw [bulk_update_countries_fst, length_filterMap_of_isSome _ _ h, Nat.add_sub_cancel]

theorem flushCreate_store_dry (st : RunState) : (flushCreate true st).store = st.store := by
  show (if (List.filterMap (findByName st.countries_by_name) st.to_create).isEmpty then _
        else _ : Nat × Store).2 = st.store
  split <;> rfl

theorem flushUpdate_store_dry (st : RunState) : (flushUpdate true st).store = st.store := by
  show (if (List.filterMap (findByName st.countries_by_name) st.to_update).isEmpty then _
        else _ : Nat × Store).2 = st.store
  split <;> rfl

@[simp] theorem enqueueCreate_to_create (cl : CleanedRow) (st : RunState) :
    (enqueueCreate cl st).to_create = st.to_create ++ [cl.name] := rfl
@[simp] theorem enqueueCreate_to_update (cl : CleanedRow) (st : RunState) :
    (enqueueCreate cl st).to_update = st.to_update := rfl
@[simp] theorem enqueueCreate_countries (cl : CleanedRow) (st : RunState) :
    (enqueueCreate cl st).countries_by_name = toCountry cl :: st.countries_by_name := rfl
@[simp] theorem enqueueCreate_created (cl : CleanedRow) (st : RunState) :
    (enqueueCreate cl st).created = st.created + 1 := rfl
@[simp] theorem enqueueCreate_updated (cl : CleanedRow) (st : RunState) :
    (enqueueCreate cl st).updated = st.updated := rfl
@[simp] theorem enqueueCreate_skipped (cl : CleanedRow) (st : RunState) :
    (enqueueCreate cl st).skipped = st.skipped := rfl
@[simp] theorem enqueueCreate_region_names (cl : CleanedRow) (st : RunState) :
    (enqueueCreate cl st).region_names = st.region_names := rfl
@[simp] theorem enqueueCreate_store (cl : CleanedRow) (st : RunState) :
    (enqueueCreate cl st).store = st.store := rfl

@[simp] theorem enqueueUpdate_to_create (cl : CleanedRow) (st : RunState) :
    (enqueueUpdate cl st).to_create = st.to_create := rfl
@[simp] theorem enqueueUpdate_to_update (cl : CleanedRow) (st : RunState) :
    (enqueueUpdate cl st).to_update = st.to_update ++ [cl.name] := rfl
@[simp] theorem enqueueUpdate_countries (cl : CleanedRow) (st : RunState) :
    (enqueueUpdate cl st).countries_by_name =
      updateByName st.countries_by_name cl.name (toCountry cl) := rfl
@[simp] theorem enqueueUpdate_created (cl : CleanedRow) (st : RunState) :
    (enqueueUpdate cl st).created = st.created := rfl
@[simp] theorem enqueueUpdate_updated (cl : CleanedRow) (st : RunState) :
    (enqueueUpdate cl st).updated = st.updated + 1 := rfl
@[simp] theorem enqueueUpdate_skipped (cl : CleanedRow) (st : RunState) :
    (enqueueUpdate cl st).skipped = st.skipped := rfl
@[simp] theorem enqueueUpdate_region_names (cl : CleanedRow) (st : RunState) :
    (enqueueUpdate cl st).region_names = st.region_names := rfl
@[simp] theorem enqueueUpdate_store (cl : CleanedRow) (st : RunState) :
    (enqueueUpdate cl st).store = st.store := rfl

/-- One decision step preserves queue resolvability and adds exactly one to
`created + updated + skipped`, whether or not it flushes. -/
theorem countryStep_inv (b : Nat) (d : Bool) (cl : CleanedRow) (st : RunState)
    (h : queuesResolvable st) :
    queuesResolvable (countryStep b d cl st) ∧
    countSum (countryStep b d cl st) = countSum st + 1 := by
  obtain ⟨hc, hu⟩ := h
  simp only [countryStep]
  split
  next hf =>
    by_cases hfc : full_clean_country (toCountry cl) = true
    · rw [if_pos hfc]
      have hres1 : ∀ n ∈ (enqueueCreate cl st).to_create,
          (findByName (enqueueCreate cl st).countries_by_name n).isSome = true := by
        intro n hn
        simp only [enqueueCreate_to_create, enqueueCreate_countries] at hn ⊢
        rcases List.mem_append.mp hn with hn | hn
        · exact findByName_cons_isSome _ (hc n hn)
        · have hn' : n = cl.name := List.mem_singleton.mp hn
          subst hn'
          rw [findByName_cons, if_pos (show (toCountry cl).name = cl.name from rfl)]
          rfl
      have hres2 : ∀ n ∈ (enqueueCreate cl st).to_update,
          (findByName (enqueueCreate cl st).countries_by_name n).isSome = true :=
        fun n hn => findByName_cons_isSome _ (hu n hn)
      split
      · refine ⟨⟨fun n hn => ?_, fun n hn => ?_⟩, ?_⟩
        · simp at hn
        · simp only [flushCreate_to_update, flushCreate_countries] at hn ⊢
          exact hres2 n hn
        · simp only [countSum, flushCreate_created d (enqueueCreate cl st) hres1,
            flushCreate_updated, flushCreate_skipped, enqueueCreate_created,
            enqueueCreate_updated, enqueueCreate_skipped]
          omega
      · refine ⟨⟨hres1, hres2⟩, ?_⟩
        simp only [countSum, enqueueCreate_created, enqueueCreate_updated,
          enqueueCreate_skipped]
        omega
    · rw [if_neg hfc]
      exact ⟨⟨hc, hu⟩, by simp only [countSum]; omega⟩
  next existing hf =>
    by_cases hch : fieldsChanged existing (toCountry cl) = true
    · rw [if_pos hch]
      have hfind : ∀ n,
          (findByName (updateByName st.countries_by_name cl.name (toCountry cl)) n).isSome =
          (findByName st.countries_by_name n).isSome := by
        intro n
        rw [findByName_updateByName st.countries_by_name cl.name (toCountry cl)
              (show (toCountry cl).name = cl.name from rfl)]
        by_cases hn : n = cl.name
        · subst hn; rw [if_pos rfl, hf]; simp [hf]
        · rw [if_neg hn]
      have hres1 : ∀ n ∈ (enqueueUpdate cl st).to_create,
          (findByName (enqueueUpdate cl st).countries_by_name n).isSome = true := by
        intro n hn
        simp only [enqueueUpdate_to_create, enqueueUpdate_countries] at hn ⊢
        rw [hfind]
        exact hc n hn
      have hres2 : ∀ n ∈ (enqueueUpdate cl st).to_update,
          (findByName (enqueueUpdate cl st).countries_by_name n).isSome = true := by
        intro n hn
        simp only [enqueueUpdate_to_update, enqueueUpdate_countries] at hn ⊢
        rw [hfind]
        rcases List.mem_append.mp hn with hn | hn
        · exact hu n hn
        · have hn' : n = cl.name := List.mem_singleton.mp hn
          subst hn'
          rw [hf]; rfl
      split
      · refine ⟨⟨fun n hn => ?_, fun n hn => ?_⟩, ?_⟩
        · simp only [flushUpdate_to_create, flushUpdate_countries] at hn ⊢
          exact hres1 n hn
        · simp at hn
        · simp only [countSum, flushUpdate_updated d (enqueueUpdate cl st) hres2,
            flushUpdate_created, flushUpdate_skipped, enqueueUpdate_created,
            enqueueUpdate_updated, enqueueUpdate_skipped]
          omega
      · refine ⟨⟨hres1, hres2⟩, ?_⟩
        simp only [countSum, enqueueUpdate_created, enqueueUpdate_updated,
          enqueueUpdate_skipped]
        omega
    · rw [if_neg hch]
      exact ⟨⟨hc, hu⟩, by simp only [countSum]; omega⟩

theorem enqueueCreate_resolvable (cl : CleanedRow) (st : RunState)
    (h : queuesResolvable st) : queuesResolvable (enqueueCreate cl st) := by
  obtain ⟨hc, hu⟩ := h
  constructor
  · intro n hn
    simp only [enqueueCreate_to_create, enqueueCreate_countries] at hn ⊢
    rcases List.mem_append.mp hn with hn | hn
    · exact findByName_cons_isSome _ (hc n hn)
    · have hn' : n = cl.name := List.mem_singleton.mp hn
      subst hn'
      rw [findByName_cons, if_pos (show (toCountry cl).name = cl.name from rfl)]
      rfl
  · intro n hn
    exact findByName_cons_isSome _ (hu n hn)

theorem enqueueUpdate_resolvable (cl : CleanedRow) (st : RunState)
    (h : queuesResolvable st)
    (hf : (findByName st.countries_by_name cl.name).isSome = true) :
    queuesResolvable (enqueueUpdate cl st) := by
  obtain ⟨hc, hu⟩ := h
  have hfind : ∀ n,
      (findByName (updateByName st.countries_by_name cl.name (toCountry cl)) n).isSome =
      (findByName st.countries_by_name n).isSome := by
    intro n
    rw [findByName_updateByName st.countries_by_name cl.name (toCountry cl)
          (show (toCountry cl).name = cl.name from rfl)]
    by_cases hn : n = cl.name
    · subst hn
      rw [if_pos rfl]
      cases findByName st.countries_by_name cl.name <;> rfl
    · rw [if_neg hn]
  constructor
  · intro n hn
    simp only [enqueueUpdate_to_create, enqueueUpdate_countries] at hn ⊢
    rw [hfind]
    exact hc n hn
  · intro n hn
    simp only [enqueueUpdate_to_update, enqueueUpdate_countries] at hn ⊢
    rw [hfind]
    rcases List.mem_append.mp hn with hn | hn
    · exact hu n hn
    · have hn' : n = cl.name := List.mem_singleton.mp hn
      subst hn'
      exact hf

theorem gocr_resolvable (n : String) (d : Bool) (st : RunState)
    (h : queuesResolvable st) : queuesResolvable (get_or_create_region n d st) := by
  obtain ⟨hc, hu⟩ := h
  constructor
  · intro m hm
    rw [gocr_to_create] at hm
    rw [gocr_countries]
    exact hc m hm
  · intro m hm
    rw [gocr_to_update] at hm
    rw [gocr_countries]
    exact hu m hm

/-- Per-row version of `countryStep_inv`: a row always bumps exactly one of the
three counters by one, and resolvability is preserved. -/
theorem processRow_inv (b : Nat) (d : Bool) (st : RunState) (r : RawRow)
    (h : queuesResolvable st) :
    queuesResolvable (processRow b d st r) ∧
    countSum (processRow b d st r) = countSum st + 1 := by
  simp only [processRow]
  split
  · exact ⟨h, by simp only [countSum]; omega⟩
  next cleaned hv =>
    obtain ⟨h1, h2⟩ := countryStep_inv b d cleaned _ (gocr_resolvable cleaned.region d st h)
    refine ⟨h1, ?_⟩
    rw [h2]
    simp only [countSum, gocr_created, gocr_updated, gocr_skipped]

theorem foldl_processRow_inv (b : Nat) (d : Bool) (rows : List RawRow) (st : RunState)
    (h : queuesResolvable st) :
    queuesResolvable (rows.foldl (processRow b d) st) ∧
    countSum (rows.foldl (processRow b d) st) = countSum st + rows.length := by
  induction rows generalizing st with
  | nil => simpa using h
  | cons r t ih =>
    obtain ⟨h1, h2⟩ := processRow_inv b d st r h
    obtain ⟨h3, h4⟩ := ih _ h1
    rw [List.foldl_cons]
    exact ⟨h3, by rw [h4, h2, List.length_cons]; omega⟩

/-- The tail flushes change none of the three counters. -/
theorem finalize_counts (d : Bool) (st : RunState) (h : queuesResolvable st) :
    (finalize d st).created = st.created ∧ (finalize d st).updated = st.updated ∧
    (finalize d st).skipped = st.skipped := by
  obtain ⟨hc, hu⟩ := h
  unfold finalize
  by_cases h1 : st.to_create.isEmpty = true
  · rw [if_pos h1]
    by_cases h2 : st.to_update.isEmpty = true
    · rw [if_pos h2]
      exact ⟨rfl, rfl, rfl⟩
    · rw [if_neg h2]
      exact ⟨rfl, flushUpdate_updated d st hu, rfl⟩
  · rw [if_neg h1]
    by_cases h2 : st.to_update.isEmpty = true
    · rw [if_pos (show (flushCreate d st).to_update.isEmpty = true from h2)]
      exact ⟨flushCreate_created d st hc, rfl, rfl⟩
    · rw [if_neg (show ¬(flushCreate d st).to_update.isEmpty = true from h2)]
      refine ⟨?_, ?_, rfl⟩
      · rw [flushUpdate_created, flushCreate_created d st hc]
      · rw [flushUpdate_updated d (flushCreate d st) hu, flushCreate_updated]

/-! ### Flush timing and dry-run do not influence decisions or counts

The decision taken on each row depends only on the two in-memory caches; a
flush touches only the store and the queues and (by count-neutrality) leaves
the counters unchanged.  Hence the observables evolve identically for any two
batch sizes and either dry-run flag. -/

theorem obs_countries {st1 st2 : RunState} (h : obs st1 = obs st2) :
    st1.countries_by_name = st2.countries_by_name := congrArg (fun x => x.2.2) h

theorem obs_regions {st1 st2 : RunState} (h : obs st1 = obs st2) :
    st1.region_names = st2.region_names := congrArg (fun x => x.2.1) h

theorem countryStep_obs (b1 b2 : Nat) (d1 d2 : Bool) (cl : CleanedRow)
    (st1 st2 : RunState) (hobs : obs st1 = obs st2)
    (h1 : queuesResolvable st1) (h2 : queuesResolvable st2) :
    obs (countryStep b1 d1 cl st1) = obs (countryStep b2 d2 cl st2) := by
  have e_cbn := obs_countries hobs
  have e_rn := obs_regions hobs
  have e_cr : st1.created = st2.created := congrArg (fun x => x.1.1) hobs
  have e_up : st1.updated = st2.updated := congrArg (fun x => x.1.2.1) hobs
  have e_sk : st1.skipped = st2.skipped := congrArg (fun x => x.1.2.2) hobs
  simp only [countryStep, e_cbn]
  split
  next hf =>
    by_cases hfc : full_clean_country (toCountry cl) = true
    · rw [if_pos hfc, if_pos hfc]
      have o1 : obs (if b1 ≤ (enqueueCreate cl st1).to_create.length then
          flushCreate d1 (enqueueCreate cl st1) else enqueueCreate cl st1) =
          obs (enqueueCreate cl st1) := by
        split
        · have hr := (enqueueCreate_resolvable cl st1 h1).1
          simp only [obs, flushCreate_created _ _ hr, flushCreate_updated,
            flushCreate_skipped, flushCreate_region_names, flushCreate_countries]
        · rfl
      have o2 : obs (if b2 ≤ (enqueueCreate cl st2).to_create.length then
          flushCreate d2 (enqueueCreate cl st2) else enqueueCreate cl st2) =
          obs (enqueueCreate cl st2) := by
        split
        · have hr := (enqueueCreate_resolvable cl st2 h2).1
          simp only [obs, flushCreate_created _ _ hr, flushCreate_updated,
            flushCreate_skipped, flushCreate_region_names, flushCreate_countries]
        · rfl
      rw [o1, o2]
      simp only [obs, enqueueCreate_created, enqueueCreate_updated, enqueueCreate_skipped,
        enqueueCreate_region_names, enqueueCreate_countries, e_cbn, e_rn, e_cr, e_up, e_sk]
    · rw [if_neg hfc, if_neg hfc]
      simp only [obs, e_cbn, e_rn, e_cr, e_up, e_sk]
  next existing hf =>
    by_cases hch : fieldsChanged existing (toCountry cl) = true
    · rw [if_pos hch, if_pos hch]
      have hf1 : (findByName st1.countries_by_name cl.name).isSome = true := by
        rw [e_cbn, hf]; rfl
      have hf2 : (findByName st2.countries_by_name cl.name).isSome = true := by
        rw [hf]; rfl
      have o1 : obs (if b1 ≤ (enqueueUpdate cl st1).to_update.length then
          flushUpdate d1 (enqueueUpdate cl st1) else enqueueUpdate cl st1) =
          obs (enqueueUpdate cl st1) := by
        split
        · have hr := (enqueueUpdate_resolvable cl st1 h1 hf1).2
          simp only [obs, flushUpdate_updated _ _ hr, flushUpdate_created,
            flushUpdate_skipped, flushUpdate_region_names, flushUpdate_countries]
        · rfl
      have o2 : obs (if b2 ≤ (enqueueUpdate cl st2).to_update.length then
          flushUpdate d2 (enqueueUpdate cl st2) else enqueueUpdate cl st2) =
          obs (enqueueUpdate cl st2) := by
        split
        · have hr := (enqueueUpdate_resolvable cl st2 h2 hf2).2
          simp only [obs, flushUpdate_updated _ _ hr, flushUpdate_created,
            flushUpdate_skipped, flushUpdate_region_names, flushUpdate_countries]
        · rfl
      rw [o1, o2]
      simp only [obs, enqueueUpdate_created, enqueueUpdate_updated, enqueueUpdate_skipped,
        enqueueUpdate_region_names, enqueueUpdate_countries, e_cbn, e_rn, e_cr, e_up, e_sk]
    · rw [if_neg hch, if_neg hch]
      simp only [obs, e_cbn, e_rn, e_cr, e_up, e_sk]

theorem processRow_obs (b1 b2 : Nat) (d1 d2 : Bool) (st1 st2 : RunState) (r : RawRow)
    (hobs : obs st1 = obs st2)
    (h1 : queuesResolvable st1) (h2 : queuesResolvable st2) :
    obs (processRow b1 d1 st1 r) = obs (processRow b2 d2 st2 r) := by
  have e_cr : st1.created = st2.created := congrArg (fun x => x.1.1) hobs
  have e_up : st1.updated = st2.updated := congrArg (fun x => x.1.2.1) hobs
  have e_sk : st1.skipped = st2.skipped := congrArg (fun x => x.1.2.2) hobs
  simp only [processRow]
  rcases hv : validate_row r with _ | cleaned
  · simp only [obs, obs_countries hobs, obs_regions hobs, e_cr, e_up, e_sk]
  · have hg : obs (get_or_create_region cleaned.region d1 st1) =
        obs (get_or_create_region cleaned.region d2 st2) := by
      simp only [obs, gocr_countries, gocr_created, gocr_updated, gocr_skipped,
        gocr_region_names, obs_countries hobs, obs_regions hobs, e_cr, e_up, e_sk]
    exact countryStep_obs b1 b2 d1 d2 cleaned _ _ hg
      (gocr_resolvable cleaned.region d1 st1 h1) (gocr_resolvable cleaned.region d2 st2 h2)

theorem foldl_processRow_obs (b1 b2 : Nat) (d1 d2 : Bool) (rows : List RawRow)
    (st1 st2 : RunState) (hobs : obs st1 = obs st2)
    (h1 : queuesResolvable st1) (h2 : queuesResolvable st2) :
    obs (rows.foldl (processRow b1 d1) st1) = obs (rows.foldl (processRow b2 d2) st2) := by
  induction rows generalizing st1 st2 with
  | nil => simpa using hobs
  | cons r t ih =>
    rw [List.foldl_cons, List.foldl_cons]
    exact ih _ _ (processRow_obs b1 b2 d1 d2 st1 st2 r hobs h1 h2)
      (processRow_inv b1 d1 st1 r h1).1 (processRow_inv b2 d2 st2 r h2).1

/-! ### Dry-run never touches the store -/

theorem countryStep_store_dry (b : Nat) (cl : CleanedRow) (st : RunState) :
    (countryStep b true cl st).store = st.store := by
  simp only [countryStep]
  split
  next hf =>
    by_cases hfc : full_clean_country (toCountry cl) = true
    · rw [if_pos hfc]
      split
      · rw [flushCreate_store_dry, enqueueCreate_store]
      · exact enqueueCreate_store cl st
    · rw [if_neg hfc]
  next existing hf =>
    by_cases hch : fieldsChanged existing (toCountry cl) = true
    · rw [if_pos hch]
      split
      · rw [flushUpdate_store_dry, enqueueUpdate_store]
      · exact enqueueUpdate_store cl st
    · rw [if_neg hch]

theorem processRow_store_dry (b : Nat) (st : RunState) (r : RawRow) :
    (processRow b true st r).store = st.store := by
  simp only [processRow]
  split
  · rfl
  next cleaned hv =>
    rw [countryStep_store_dry, gocr_store_dry]

theorem foldl_processRow_store_dry (b : Nat) (rows : List RawRow) (st : RunState) :
    (rows.foldl (processRow b true) st).store = st.store := by
  induction rows generalizing st with
  | nil => rfl
  | cons r t ih => rw [List.foldl_cons, ih, processRow_store_dry]

theorem finalize_store_dry (st : RunState) : (finalize true st).store = st.store := by
  unfold finalize
  by_cases h1 : st.to_create.isEmpty = true
  · rw [if_pos h1]
    by_cases h2 : st.to_update.isEmpty = true
    · rw [if_pos h2]
    · rw [if_neg h2, flushUpdate_store_dry]
  · rw [if_neg h1]
    by_cases h2 : st.to_update.isEmpty = true
    · rw [if_pos (show (flushCreate true st).to_update.isEmpty = true from h2),
          flushCreate_store_dry]
    · rw [if_neg (show ¬(flushCreate true st).to_update.isEmpty = true from h2),
          flushUpdate_store_dry, flushCreate_store_dry]

/-! ### `process_records`-level consequences -/

theorem queuesResolvable_init (s : Store) :
    queuesResolvable ⟨s, s.regions, s.countries, [], [], 0, 0, 0⟩ :=
  ⟨fun _ hn => absurd hn (List.not_mem_nil _), fun _ hn => absurd hn (List.not_mem_nil _)⟩

/-- Every input row is counted exactly once:
`created + updated + skipped = len(data)`. -/
theorem process_records_sum (rows : List RawRow) (b : Nat) (dry reset : Bool) (store : Store) :
    (process_records rows b dry reset store).1.1 +
    (process_records rows b dry reset store).1.2.1 +
    (process_records rows b dry reset store).1.2.2 = rows.length := by
  have main : ∀ s' : Store,
      (finalize dry (rows.foldl (processRow b dry)
          ⟨s', s'.regions, s'.countries, [], [], 0, 0, 0⟩)).created +
      (finalize dry (rows.foldl (processRow b dry)
          ⟨s', s'.regions, s'.countries, [], [], 0, 0, 0⟩)).updated +
      (finalize dry (rows.foldl (processRow b dry)
          ⟨s', s'.regions, s'.countries, [], [], 0, 0, 0⟩)).skipped = rows.length := by
    intro s'
    obtain ⟨hres, hsum⟩ :=
      foldl_processRow_inv b dry rows ⟨s', s'.regions, s'.countries, [], [], 0, 0, 0⟩
        (queuesResolvable_init s')
    obtain ⟨hc, hu, hk⟩ := finalize_counts dry _ hres
    rw [hc, hu, hk]
    simpa [countSum] using hsum
  exact main _

/-- The reported counts do not depend on the batch size, nor on the dry-run
flag as long as the effective reset behaviour matches (`reset AND NOT dry_run`
decides whether the preload sees a wiped store). -/
theorem process_records_counts_eq (rows : List RawRow) (b1 b2 : Nat) (d1 d2 : Bool)
    (reset : Bool) (store : Store) (h : (reset && !d1) = (reset && !d2)) :
    (process_records rows b1 d1 reset store).1 = (process_records rows b2 d2 reset store).1 := by
  have main : ∀ s' : Store,
      ((finalize d1 (rows.foldl (processRow b1 d1)
          ⟨s', s'.regions, s'.countries, [], [], 0, 0, 0⟩)).created,
       (finalize d1 (rows.foldl (processRow b1 d1)
          ⟨s', s'.regions, s'.countries, [], [], 0, 0, 0⟩)).updated,
       (finalize d1 (rows.foldl (processRow b1 d1)
          ⟨s', s'.regions, s'.countries, [], [], 0, 0, 0⟩)).skipped) =
      ((finalize d2 (rows.foldl (processRow b2 d2)
          ⟨s', s'.regions, s'.countries, [], [], 0, 0, 0⟩)).created,
       (finalize d2 (rows.foldl (processRow b2 d2)
          ⟨s', s'.regions, s'.countries, [], [], 0, 0, 0⟩)).updated,
       (finalize d2 (rows.foldl (processRow b2 d2)
          ⟨s', s'.regions, s'.countries, [], [], 0, 0, 0⟩)).skipped) := by
    intro s'
    have h0 := queuesResolvable_init s'
    have hobs := foldl_processRow_obs b1 b2 d1 d2 rows _ _ rfl h0 h0
    obtain ⟨hres1, _⟩ := foldl_processRow_inv b1 d1 rows _ h0
    obtain ⟨hres2, _⟩ := foldl_processRow_inv b2 d2 rows _ h0
    obtain ⟨hc1, hu1, hk1⟩ := finalize_counts d1 _ hres1
    obtain ⟨hc2, hu2, hk2⟩ := finalize_counts d2 _ hres2
    rw [hc1, hu1, hk1, hc2, hu2, hk2]
    have e_cr := congrArg (fun x : (Nat × Nat × Nat) × List String × List Country => x.1.1) hobs
    have e_up := congrArg (fun x : (Nat × Nat × Nat) × List String × List Country => x.1.2.1) hobs
    have e_sk := congrArg (fun x : (Nat × Nat × Nat) × List String × List Country => x.1.2.2) hobs
    simp only [obs] at e_cr e_up e_sk
    rw [e_cr, e_up, e_sk]
  unfold process_records
  rw [h]
  exact main _

/-- In dry-run, the persistent store is returned untouched. -/
theorem process_records_dry_store (rows : List RawRow) (b : Nat) (reset : Bool)
    (store : Store) : (process_records rows b true reset store).2 = store := by
  unfold process_records
  simp only [Bool.not_true, Bool.and_false, Bool.false_eq_true, if_false]
  rw [finalize_store_dry, foldl_processRow_store_dry]

/-! ### A creating row, and names already cached never create again -/

/-- A row whose name misses the cache (and passes `full_clean`) increments
`created` and inserts its name into the cache. -/
theorem processRow_creates (b : Nat) (d : Bool) (st : RunState) (r : RawRow)
    (c : CleanedRow) (hv : validate_row r = some c)
    (hq : queuesResolvable st)
    (hnone : findByName st.countries_by_name c.name = none)
    (hfc : full_clean_country (toCountry c) = true) :
    (processRow b d st r).created = st.created + 1 ∧
    (findByName (processRow b d st r).countries_by_name c.name).isSome = true := by
  simp only [processRow, hv]
  simp only [countryStep, gocr_countries, hnone]
  rw [if_pos hfc]
  have hname : (toCountry c).name = c.name := rfl
  split
  · constructor
    · rw [flushCreate_created d _
          (enqueueCreate_resolvable c _ (gocr_resolvable c.region d st hq)).1,
        enqueueCreate_created, gocr_created]
    · rw [flushCreate_countries, enqueueCreate_countries, gocr_countries,
        findByName_cons, if_pos hname]
      rfl
  · constructor
    · rw [enqueueCreate_created, gocr_created]
    · rw [enqueueCreate_countries, gocr_countries, findByName_cons, if_pos hname]
      rfl

/-- A cached name survives any later row (the cache never loses names). -/
theorem processRow_countries_isSome_mono (b : Nat) (d : Bool) (st : RunState)
    (r : RawRow) (m : String)
    (h : (findByName st.countries_by_name m).isSome = true) :
    (findByName (processRow b d st r).countries_by_name m).isSome = true := by
  simp only [processRow]
  split
  · exact h
  next cl hv =>
    simp only [countryStep, gocr_countries]
    split
    next hf =>
      by_cases hfc : full_clean_country (toCountry cl) = true
      · rw [if_pos hfc]
        split
        · rw [flushCreate_countries, enqueueCreate_countries, gocr_countries]
          exact findByName_cons_isSome _ h
        · rw [enqueueCreate_countries, gocr_countries]
          exact findByName_cons_isSome _ h
      · rw [if_neg hfc]
        exact h
    next existing hf =>
      by_cases hch : fieldsChanged existing (toCountry cl) = true
      · rw [if_pos hch]
        have key : (findByName (updateByName st.countries_by_name cl.name (toCountry cl))
            m).isSome = true := by
          rw [findByName_updateByName st.countries_by_name cl.name (toCountry cl)
                (show (toCountry cl).name = cl.name from rfl)]
          by_cases hm : m = cl.name
          · subst hm
            rw [if_pos rfl, hf]
            rfl
          · rw [if_neg hm]; exact h
        split
        · rw [flushUpdate_countries, enqueueUpdate_countries, gocr_countries]
          exact key
        · rw [enqueueUpdate_countries, gocr_countries]
          exact key
      · rw [if_neg hch]
        exact h

/-- A row whose validated name is already cached never increments `created`. -/
theorem processRow_created_of_present (b : Nat) (d : Bool) (st : RunState) (r : RawRow)
    (h : ∀ c, validate_row r = some c →
      (findByName st.countries_by_name c.name).isSome = true) :
    (processRow b d st r).created = st.created := by
  simp only [processRow]
  rcases hv : validate_row r with _ | cl
  · rfl
  · have hpres := h cl hv
    simp only [countryStep, gocr_countries]
    split
    next hf => rw [hf] at hpres; cases hpres
    next existing hf =>
      by_cases hch : fieldsChanged existing (toCountry cl) = true
      · rw [if_pos hch]
        split
        · rw [flushUpdate_created, enqueueUpdate_created, gocr_created]
        · rw [enqueueUpdate_created, gocr_created]
      · rw [if_neg hch]
        show (get_or_create_region cl.region d st).created = st.created
        exact gocr_created cl.region d st

theorem foldl_created_const (b : Nat) (d : Bool) (rest : List RawRow) (n : String)
    (st : RunState) (hq : queuesResolvable st)
    (hpres : (findByName st.countries_by_name n).isSome = true)
    (hall : ∀ r ∈ rest, ∀ c, validate_row r = some c → c.name = n) :
    (rest.foldl (processRow b d) st).created = st.created := by
  induction rest generalizing st with
  | nil => rfl
  | cons r t ih =>
    rw [List.foldl_cons]
    have hcr : (processRow b d st r).created = st.created :=
      processRow_created_of_present b d st r fun c hc => by
        rw [hall r (List.mem_cons_self r t) c hc]; exact hpres
    rw [ih _ (processRow_inv b d st r hq).1
          (processRow_countries_isSome_mono b d st r n hpres)
          (fun r2 hr2 => hall r2 (List.mem_cons_of_mem r hr2)),
        hcr]

/-! ## Sample data (mirroring the repository's own test fixtures) -/

def testlandRow : RawRow :=
  { name := some "Testland", region := some "Europe", alpha2Code := some "TL",
    alpha3Code := some "TST", population := some 12345,
    topLevelDomain := some (TldInput.list [.str ".tl"]), capital := some "Exam City" }

def testlandCleaned : CleanedRow :=
  { name := "Testland", region := "Europe", alpha2Code := "TL", alpha3Code := "TST",
    population := 12345, topLevelDomain := "[\".tl\"]", capital := some "Exam City" }

/-- The same country with a conflicting population. -/
def testlandRow99 : RawRow :=
  { name := some "Testland", region := some "Europe", alpha2Code := some "TL",
    alpha3Code := some "TST", population := some 99,
    topLevelDomain := some (TldInput.list [.str ".tl"]), capital := some "Exam City" }

def testlandCleaned99 : CleanedRow :=
  { name := "Testland", region := "Europe", alpha2Code := "TL", alpha3Code := "TST",
    population := 99, topLevelDomain := "[\".tl\"]", capital := some "Exam City" }

/-- A store already holding exactly the country `testlandRow` describes. -/
def testlandStore : Store :=
  { regions := ["Europe"],
    countries := [{ name := "Testland", alpha2Code := "TL", alpha3Code := "TST",
                    population := 12345, topLevelDomain := "[\".tl\"]",
                    capital := some "Exam City", region := "Europe" }] }

example : validate_row testlandRow = some testlandCleaned := by decide
example : validate_row testlandRow99 = some testlandCleaned99 := by decide

/-! ## Claim C1 -/

/-- C1: for every input row sequence, batch size and mode, `process_records`
counts each row exactly once at decision time: the reported counts are
independent of the batch size (so no mid-run or tail flush changes any count),
and `created + updated + skipped` equals the number of input rows. -/
theorem c1_counts_each_row_exactly_once (rows : List RawRow) (b1 b2 : Nat)
    (dry reset : Bool) (store : Store) :
    (process_records rows b1 dry reset store).1 = (process_records rows b2 dry reset store).1 ∧
    (process_records rows b1 dry reset store).1.1 +
    (process_records rows b1 dry reset store).1.2.1 +
    (process_records rows b1 dry reset store).1.2.2 = rows.length :=
  ⟨process_records_counts_eq rows b1 b2 dry dry reset store rfl,
   process_records_sum rows b1 dry reset store⟩

/-! ## Claim C5 -/

/-- C5 counterexample: with `reset` set, a dry run does **not** compute the
same counts as a real run over the same store.  The real run wipes the store
before preloading (the single row is then a create); the dry run only reports
the reset, preloads the still-populated store, and skips the row as unchanged. -/
theorem c5_counterexample :
    (process_records [testlandRow] 10 true true testlandStore).1 ≠
    (process_records [testlandRow] 10 false true testlandStore).1 := by
  decide

/-- C5 (amended): a dry run writes nothing — the returned store is the input
store for every `reset` flag — and when `reset` is not requested the dry run
reports exactly the counts of the corresponding real run. -/
theorem c5_dry_run_frame (rows : List RawRow) (b : Nat) (reset : Bool) (store : Store) :
    (process_records rows b true reset store).2 = store ∧
    (process_records rows b true false store).1 =
      (process_records rows b false false store).1 :=
  ⟨process_records_dry_store rows b reset store,
   process_records_counts_eq rows b b true false false store rfl⟩

/-! ## Claim C9 -/

/-- C9: multiple valid rows sharing one country name, with no pre-existing
country of that name, produce exactly one create: the first row creates and
enters the in-memory name map; by `c1` (sum = length) every later duplicate is
counted as updated or skipped, never as a second create. -/
theorem c9_at_most_one_create_per_name (b : Nat) (dry : Bool) (store : Store)
    (n : String) (r0 : RawRow) (rest : List RawRow) (c0 : CleanedRow)
    (h0 : validate_row r0 = some c0) (hn0 : c0.name = n)
    (hfc : full_clean_country (toCountry c0) = true)
    (hrest : ∀ r ∈ rest, ∀ c, validate_row r = some c → c.name = n)
    (hnew : findByName store.countries n = none) :
    (process_records (r0 :: rest) b dry false store).1.1 = 1 ∧
    (process_records (r0 :: rest) b dry false store).1.1 +
    (process_records (r0 :: rest) b dry false store).1.2.1 +
    (process_records (r0 :: rest) b dry false store).1.2.2 = (r0 :: rest).length := by
  refine ⟨?_, process_records_sum _ _ _ _ _⟩
  have hq0 := queuesResolvable_init store
  have hnone : findByName
      (⟨store, store.regions, store.countries, [], [], 0, 0, 0⟩ : RunState).countries_by_name
      c0.name = none := by
    rw [hn0]; exact hnew
  have hcr := processRow_creates b dry _ r0 c0 h0 hq0 hnone hfc
  have hq1 := (processRow_inv b dry _ r0 hq0).1
  have main : (finalize dry ((r0 :: rest).foldl (processRow b dry)
      ⟨store, store.regions, store.countries, [], [], 0, 0, 0⟩)).created = 1 := by
    rw [List.foldl_cons]
    obtain ⟨hres, _⟩ := foldl_processRow_inv b dry rest _ hq1
    rw [(finalize_counts dry _ hres).1]
    rw [foldl_created_const b dry rest n _ hq1 (by rw [← hn0]; exact hcr.2) hrest]
    rw [hcr.1]
  exact main

/-- C9 witness: two valid rows both named `Testland` (with conflicting
populations) against an empty store yield exactly one create, and the counts
sum to 2 (here: one create and one update). -/
theorem c9_witness :
    (process_records [testlandRow, testlandRow99] 1000 false false ⟨[], []⟩).1.1 = 1 ∧
    (process_records [testlandRow, testlandRow99] 1000 false false ⟨[], []⟩).1.1 +
    (process_records [testlandRow, testlandRow99] 1000 false false ⟨[], []⟩).1.2.1 +
    (process_records [testlandRow, testlandRow99] 1000 false false ⟨[], []⟩).1.2.2 =
      ([testlandRow, testlandRow99] : List RawRow).length :=
  c9_at_most_one_create_per_name 1000 false ⟨[], []⟩ "Testland" testlandRow
    [testlandRow99] testlandCleaned (by decide) (by decide) (by decide)
    (by
      intro r hr c hc
      have hr' : r = testlandRow99 := List.mem_singleton.mp hr
      subst hr'
      have h99 : validate_row testlandRow99 = some testlandCleaned99 := by decide
      rw [h99] at hc
      cases hc
      decide)
    (by decide)

/-! ## The real run's final store: lookup-level characterisation

In real mode a flush copies current cache values into the store.  `RealInv`
records the bookkeeping between store, cache and queues under which, once the
queues are drained, the store's name-keyed lookups coincide with the cache's. -/

theorem findByName_append (xs ys : List Country) (n : String) :
    findByName (xs ++ ys) n =
      match findByName xs n with
      | some c => some c
      | none => findByName ys n := by
  induction xs with
  | nil => simp [findByName]
  | cons c t ih =>
    rw [List.cons_append, findByName_cons, findByName_cons]
    by_cases hc : c.name = n
    · rw [if_pos hc, if_pos hc]
    · rw [if_neg hc, if_neg hc, ih]

/-- An unqueued name is absent from the resolved queue. -/
theorem findByName_resolve_not_mem (names : List String) (cache : List Country)
    (n : String) (h : n ∉ names) :
    findByName (names.filterMap (findByName cache)) n = none := by
  induction names with
  | nil => rfl
  | cons m t ih =>
    have hnt : n ∉ t := fun e => h (List.mem_cons_of_mem m e)
    rw [List.filterMap_cons]
    rcases hm : findByName cache m with _ | c
    · exact ih hnt
    · rw [findByName_cons, if_neg ?_]
      · exact ih hnt
      · rw [findByName_some_name hm]
        exact fun e => h (e ▸ List.mem_cons_self m t)

/-- Looking a queued name up in the resolved queue is looking it up in the
cache. -/
theorem findByName_resolve_mem (names : List String) (cache : List Country)
    (n : String) (h : n ∈ names) :
    findByName (names.filterMap (findByName cache)) n = findByName cache n := by
  induction names with
  | nil => cases h
  | cons m t ih =>
    rw [List.filterMap_cons]
    by_cases hn : n ∈ t
    · rcases hm : findByName cache m with _ | c
      · exact ih hn
      · rw [findByName_cons]
        by_cases hcn : c.name = n
        · rw [if_pos hcn]
          have hnm : n = m := by rw [← hcn, findByName_some_name hm]
          rw [hnm, hm]
        · rw [if_neg hcn]
          exact ih hn
    · have hnm : n = m := by
        rcases List.mem_cons.mp h with h1 | h1
        · exact h1
        · exact absurd h1 hn
      subst hnm
      rcases hm : findByName cache n with _ | c
      · exact findByName_resolve_not_mem t cache n hn
      · rw [findByName_cons, if_pos (findByName_some_name hm)]

/-- `bulk_update`'s per-row rewrite. -/
def applyUpdElem (us : List Country) (c : Country) : Country :=
  (us.find? fun u => u.name == c.name).getD c

def applyUpd (cs us : List Country) : List Country := cs.map (applyUpdElem us)

theorem applyUpdElem_name (us : List Country) (c : Country) :
    (applyUpdElem us c).name = c.name := by
  rcases hu : us.find? (fun u => u.name == c.name) with _ | u
  · simp [applyUpdElem, hu]
  · have hq := List.find?_some hu
    simp only [beq_iff_eq] at hq
    simp [applyUpdElem, hu, hq]

theorem findByName_applyUpd (cs us : List Country) (n : String) :
    findByName (applyUpd cs us) n = (findByName cs n).map (applyUpdElem us) := by
  induction cs with
  | nil => rfl
  | cons c t ih =>
    simp only [applyUpd, List.map_cons] at ih ⊢
    rw [findByName_cons, findByName_cons]
    by_cases hc : c.name = n
    · rw [if_pos (by rw [applyUpdElem_name]; exact hc), if_pos hc]
      rfl
    · rw [if_neg (by rw [applyUpdElem_name]; exact hc), if_neg hc]
      exact ih

theorem applyUpd_nil (cs : List Country) : applyUpd cs [] = cs := by
  unfold applyUpd applyUpdElem
  simp

theorem bulk_create_countries_store (cs : List Country) (s : Store) :
    (bulk_create_countries cs false s).2 = { s with countries := s.countries ++ cs } := by
  unfold bulk_create_countries
  rcases cs with _ | ⟨c, t⟩
  · simp
  · rfl

theorem bulk_update_countries_store (us : List Country) (s : Store) :
    (bulk_update_countries us false s).2 = { s with countries := applyUpd s.countries us } := by
  unfold bulk_update_countries
  rcases us with _ | ⟨u, t⟩
  · simp [applyUpd_nil]
  · rfl

/-- The store/cache/queue bookkeeping maintained by a real (non-dry) run:
queued names resolve in the cache; queued creates are absent from the store;
every cached name is stored or create-queued; store and cache agree at every
unqueued name; the region store mirrors the region cache. -/
structure RealInv (st : RunState) : Prop where
  qres : queuesResolvable st
  createFresh : ∀ n ∈ st.to_create, findByName st.store.countries n = none
  cacheCov : ∀ n, (findByName st.countries_by_name n).isSome = true →
      (findByName st.store.countries n).isSome = true ∨ n ∈ st.to_create
  syncEq : ∀ n, n ∉ st.to_create → n ∉ st.to_update →
      findByName st.store.countries n = findByName st.countries_by_name n
  regEq : st.store.regions = st.region_names

theorem RealInv.storeSub {st : RunState} (h : RealInv st) :
    ∀ n, (findByName st.store.countries n).isSome = true →
      (findByName st.countries_by_name n).isSome = true := by
  intro n hn
  by_cases h1 : n ∈ st.to_create
  · rw [h.createFresh n h1] at hn
    cases hn
  · by_cases h2 : n ∈ st.to_update
    · exact h.qres.2 n h2
    · rw [← h.syncEq n h1 h2]
      exact hn

theorem RealInv_init (s : Store) :
    RealInv ⟨s, s.regions, s.countries, [], [], 0, 0, 0⟩ := by
  refine ⟨queuesResolvable_init s, ?_, ?_, ?_, rfl⟩
  · intro n hn
    cases hn
  · intro n hn
    exact Or.inl hn
  · intro n _ _
    rfl

theorem findByName_updateByName_isSome (cs : List Country) (nm : String) (v : Country)
    (hv : v.name = nm) (m : String) :
    (findByName (updateByName cs nm v) m).isSome = (findByName cs m).isSome := by
  rw [findByName_updateByName cs nm v hv]
  by_cases hm : m = nm
  · subst hm
    rw [if_pos rfl]
    cases findByName cs m <;> rfl
  · rw [if_neg hm]

theorem flushCreate_RealInv (st : RunState) (h : RealInv st) :
    RealInv (flushCreate false st) := by
  obtain ⟨⟨hqc, hqu⟩, hbf, hcov, hsync, hreg⟩ := h
  have hcs : (flushCreate false st).store.countries =
      st.store.countries ++ st.to_create.filterMap (findByName st.countries_by_name) := by
    show ((bulk_create_countries _ false st.store).2).countries = _
    rw [bulk_create_countries_store]
  have hrg : (flushCreate false st).store.regions = st.store.regions := by
    show ((bulk_create_countries _ false st.store).2).regions = _
    rw [bulk_create_countries_store]
  refine ⟨⟨?_, ?_⟩, ?_, ?_, ?_, ?_⟩
  · intro n hn
    rw [flushCreate_to_create] at hn
    cases hn
  · intro n hn
    rw [flushCreate_to_update] at hn
    rw [flushCreate_countries]
    exact hqu n hn
  · intro n hn
    rw [flushCreate_to_create] at hn
    cases hn
  · intro n hn
    rw [flushCreate_countries] at hn
    left
    rw [hcs, findByName_append]
    rcases hcov n hn with hs | hc
    · rcases hx : findByName st.store.countries n with _ | c
      · rw [hx] at hs
        cases hs
      · rfl
    · rcases hx : findByName st.store.countries n with _ | c
      · rw [findByName_resolve_mem _ _ _ hc]
        exact hn
      · rfl
  · intro n _ hn2
    rw [flushCreate_to_update] at hn2
    rw [flushCreate_countries, hcs, findByName_append]
    by_cases hc : n ∈ st.to_create
    · rw [hbf n hc]
      exact findByName_resolve_mem _ _ _ hc
    · rcases hx : findByName st.store.countries n with _ | c
      · rw [findByName_resolve_not_mem _ _ _ hc, ← hsync n hc hn2, hx]
      · rw [← hsync n hc hn2, hx]
  · rw [flushCreate_region_names, hrg]
    exact hreg

theorem flushUpdate_RealInv (st : RunState) (h : RealInv st) :
    RealInv (flushUpdate false st) := by
  obtain ⟨⟨hqc, hqu⟩, hbf, hcov, hsync, hreg⟩ := h
  have hcs : (flushUpdate false st).store.countries =
      applyUpd st.store.countries (st.to_update.filterMap (findByName st.countries_by_name)) := by
    show ((bulk_update_countries _ false st.store).2).countries = _
    rw [bulk_update_countries_store]
  have hrg : (flushUpdate false st).store.regions = st.store.regions := by
    show ((bulk_update_countries _ false st.store).2).regions = _
    rw [bulk_update_countries_store]
  refine ⟨⟨?_, ?_⟩, ?_, ?_, ?_, ?_⟩
  · intro n hn
    rw [flushUpdate_to_create] at hn
    rw [flushUpdate_countries]
    exact hqc n hn
  · intro n hn
    rw [flushUpdate_to_update] at hn
    cases hn
  · intro n hn
    rw [flushUpdate_to_create] at hn
    rw [hcs, findByName_applyUpd, hbf n hn]
    rfl
  · intro n hn
    rw [flushUpdate_countries] at hn
    rcases hcov n hn with hs | hc
    · left
      rw [hcs, findByName_applyUpd]
      rcases hx : findByName st.store.countries n with _ | c
      · rw [hx] at hs
        cases hs
      · rfl
    · right
      rw [flushUpdate_to_create]
      exact hc
  · intro n hn1 _
    rw [flushUpdate_to_create] at hn1
    rw [flushUpdate_countries, hcs, findByName_applyUpd]
    by_cases hu2 : n ∈ st.to_update
    · have hsome := hqu n hu2
      rcases hy : findByName st.countries_by_name n with _ | v
      · rw [hy] at hsome
        cases hsome
      · rcases hcov n (by rw [hy]; rfl) with hs | hc
        · rcases hx : findByName st.store.countries n with _ | c
          · rw [hx] at hs
            cases hs
          · have hcn : c.name = n := findByName_some_name hx
            show some (applyUpdElem _ c) = some v
            unfold applyUpdElem
            rw [hcn]
            show some ((findByName (st.to_update.filterMap (findByName st.countries_by_name)) n).getD c) = some v
            rw [findByName_resolve_mem _ _ _ hu2, hy]
            rfl
        · exact absurd hc hn1
    · rcases hx : findByName st.store.countries n with _ | c
      · rw [← hsync n hn1 hu2, hx]
        rfl
      · have hcn : c.name = n := findByName_some_name hx
        show some (applyUpdElem _ c) = _
        unfold applyUpdElem
        rw [hcn]
        show some ((findByName (st.to_update.filterMap (findByName st.countries_by_name)) n).getD c) = _
        rw [findByName_resolve_not_mem _ _ _ hu2]
        rw [← hsync n hn1 hu2, hx]
        rfl
  · rw [flushUpdate_region_names, hrg]
    exact hreg

theorem gocr_RealInv (name : String) (st : RunState) (h : RealInv st) :
    RealInv (get_or_create_region name false st) := by
  obtain ⟨hq, hbf, hcov, hsync, hreg⟩ := h
  unfold get_or_create_region
  by_cases hm : name ∈ st.region_names
  · rw [if_pos hm]
    exact ⟨hq, hbf, hcov, hsync, hreg⟩
  · rw [if_neg hm]
    refine ⟨hq, hbf, hcov, hsync, ?_⟩
    show st.store.regions ++ [name] = st.region_names ++ [name]
    rw [hreg]

theorem enqueueCreate_RealInv (cl : CleanedRow) (st : RunState) (h : RealInv st)
    (hf : findByName st.countries_by_name cl.name = none) :
    RealInv (enqueueCreate cl st) := by
  refine ⟨enqueueCreate_resolvable cl st h.qres, ?_, ?_, ?_, ?_⟩
  · intro n hn
    rw [enqueueCreate_to_create] at hn
    rcases List.mem_append.mp hn with hn | hn
    · exact h.createFresh n hn
    · have hn' : n = cl.name := List.mem_singleton.mp hn
      subst hn'
      rcases hx : findByName st.store.countries cl.name with _ | c
      · exact hx
      · have hs := h.storeSub cl.name (by rw [hx]; rfl)
        rw [hf] at hs
        cases hs
  · intro n hn
    rw [enqueueCreate_countries, findByName_cons] at hn
    rw [enqueueCreate_to_create]
    by_cases hnn : (toCountry cl).name = n
    · right
      exact List.mem_append.mpr (Or.inr (by
        have : n = cl.name := by rw [← hnn]; rfl
        rw [this]
        exact List.mem_singleton.mpr rfl))
    · rw [if_neg hnn] at hn
      rcases h.cacheCov n hn with hs | hc
      · exact Or.inl hs
      · exact Or.inr (List.mem_append.mpr (Or.inl hc))
  · intro n hn1 hn2
    rw [enqueueCreate_to_create] at hn1
    rw [enqueueCreate_to_update] at hn2
    have hne : ¬(toCountry cl).name = n := by
      show ¬cl.name = n
      intro e
      exact hn1 (List.mem_append.mpr (Or.inr (by rw [← e]; exact List.mem_singleton.mpr rfl)))
    rw [enqueueCreate_countries, findByName_cons, if_neg hne]
    exact h.syncEq n (fun e => hn1 (List.mem_append.mpr (Or.inl e))) hn2
  · rw [enqueueCreate_region_names]
    exact h.regEq

theorem enqueueUpdate_RealInv (cl : CleanedRow) (st : RunState) (h : RealInv st)
    (hf : (findByName st.countries_by_name cl.name).isSome = true) :
    RealInv (enqueueUpdate cl st) := by
  refine ⟨enqueueUpdate_resolvable cl st h.qres hf, ?_, ?_, ?_, ?_⟩
  · intro n hn
    rw [enqueueUpdate_to_create] at hn
    exact h.createFresh n hn
  · intro n hn
    rw [enqueueUpdate_countries,
      findByName_updateByName_isSome st.countries_by_name cl.name (toCountry cl) rfl n] at hn
    rw [enqueueUpdate_to_create]
    exact h.cacheCov n hn
  · intro n hn1 hn2
    rw [enqueueUpdate_to_create] at hn1
    rw [enqueueUpdate_to_update] at hn2
    have hne : ¬n = cl.name := fun e =>
      hn2 (List.mem_append.mpr (Or.inr (by rw [e]; exact List.mem_singleton.mpr rfl)))
    rw [enqueueUpdate_countries,
      findByName_updateByName st.countries_by_name cl.name (toCountry cl) rfl n,
      if_neg hne]
    exact h.syncEq n hn1 (fun e => hn2 (List.mem_append.mpr (Or.inl e)))
  · rw [enqueueUpdate_region_names]
    exact h.regEq

theorem countryStep_RealInv (b : Nat) (cl : CleanedRow) (st : RunState)
    (h : RealInv st) : RealInv (countryStep b false cl st) := by
  simp only [countryStep]
  split
  next hf =>
    by_cases hfc : full_clean_country (toCountry cl) = true
    · rw [if_pos hfc]
      split
      · exact flushCreate_RealInv _ (enqueueCreate_RealInv cl st h hf)
      · exact enqueueCreate_RealInv cl st h hf
    · rw [if_neg hfc]
      exact ⟨h.qres, h.createFresh, h.cacheCov, h.syncEq, h.regEq⟩
  next existing hf =>
    by_cases hch : fieldsChanged existing (toCountry cl) = true
    · rw [if_pos hch]
      have hsome : (findByName st.countries_by_name cl.name).isSome = true := by
        rw [hf]; rfl
      split
      · exact flushUpdate_RealInv _ (enqueueUpdate_RealInv cl st h hsome)
      · exact enqueueUpdate_RealInv cl st h hsome
    · rw [if_neg hch]
      exact ⟨h.qres, h.createFresh, h.cacheCov, h.syncEq, h.regEq⟩

theorem processRow_RealInv (b : Nat) (st : RunState) (r : RawRow) (h : RealInv st) :
    RealInv (processRow b false st r) := by
  simp only [processRow]
  split
  · exact ⟨h.qres, h.createFresh, h.cacheCov, h.syncEq, h.regEq⟩
  next cleaned hv =>
    exact countryStep_RealInv b cleaned _ (gocr_RealInv cleaned.region st h)

theorem foldl_RealInv (b : Nat) (rows : List RawRow) (st : RunState) (h : RealInv st) :
    RealInv (rows.foldl (processRow b false) st) := by
  induction rows generalizing st with
  | nil => exact h
  | cons r t ih =>
    rw [List.foldl_cons]
    exact ih _ (processRow_RealInv b st r h)

/-- After the tail flushes of a real run, looking a name up in the store is
looking it up in the final cache, and the stored regions are the final region
cache. -/
theorem finalize_real_store (st : RunState) (h : RealInv st) :
    (∀ n, findByName (finalize false st).store.countries n =
      findByName st.countries_by_name n) ∧
    (finalize false st).store.regions = st.region_names := by
  have step1 : RealInv (if st.to_create.isEmpty then st else flushCreate false st) ∧
      (if st.to_create.isEmpty then st else flushCreate false st).to_create = [] ∧
      (if st.to_create.isEmpty then st else flushCreate false st).to_update = st.to_update ∧
      (if st.to_create.isEmpty then st else flushCreate false st).countries_by_name =
        st.countries_by_name ∧
      (if st.to_create.isEmpty then st else flushCreate false st).region_names =
        st.region_names := by
    by_cases h1 : st.to_create.isEmpty = true
    · rw [if_pos h1]
      exact ⟨h, List.isEmpty_iff.mp h1, rfl, rfl, rfl⟩
    · rw [if_neg h1]
      exact ⟨flushCreate_RealInv st h, rfl, rfl, rfl, rfl⟩
  obtain ⟨hI1, hq1, hu1, hc1, hr1⟩ := step1
  set st1 := if st.to_create.isEmpty then st else flushCreate false st with hst1
  have hfin : finalize false st = if st1.to_update.isEmpty then st1 else flushUpdate false st1 := rfl
  have step2 : RealInv (finalize false st) ∧ (finalize false st).to_create = [] ∧
      (finalize false st).to_update = [] ∧
      (finalize false st).countries_by_name = st.countries_by_name ∧
      (finalize false st).region_names = st.region_names := by
    rw [hfin]
    by_cases h2 : st1.to_update.isEmpty = true
    · rw [if_pos h2]
      exact ⟨hI1, hq1, List.isEmpty_iff.mp h2, hc1, hr1⟩
    · rw [if_neg h2]
      refine ⟨flushUpdate_RealInv st1 hI1, ?_, rfl, ?_, ?_⟩
      · rw [flushUpdate_to_create]
        exact hq1
      · rw [flushUpdate_countries]
        exact hc1
      · rw [flushUpdate_region_names]
        exact hr1
  obtain ⟨hI, hqc, hqu, hcc, hrr⟩ := step2
  constructor
  · intro n
    rw [← hcc]
    exact hI.syncEq n (by rw [hqc]; exact List.not_mem_nil n)
      (by rw [hqu]; exact List.not_mem_nil n)
  · rw [hI.regEq, hrr]

/-! ## Per-row cache facts after run one -/

/-- After a run processed a validated row `c`, the cache holds exactly the
desired country under `c.name` — unless the desired country fails
`full_clean`, in which case the name was never inserted. -/
def countryFact (st : RunState) (c : CleanedRow) : Prop :=
  c.region ∈ st.region_names ∧
  (findByName st.countries_by_name c.name = some (toCountry c) ∨
   (findByName st.countries_by_name c.name = none ∧
    full_clean_country (toCountry c) = false))

theorem fieldsChanged_self (x : Country) : fieldsChanged x x = false := by
  simp [fieldsChanged]

theorem eq_of_not_fieldsChanged {e d2 : Country} (h : fieldsChanged e d2 = false)
    (hn : e.name = d2.name) : e = d2 := by
  simp only [fieldsChanged, Bool.or_eq_false_iff, bne_eq_false_iff_eq] at h
  obtain ⟨⟨⟨⟨⟨h1, h2⟩, h3⟩, h4⟩, h5⟩, h6⟩ := h
  cases e
  cases d2
  simp_all

theorem gocr_mem_region (name : String) (d : Bool) (st : RunState) :
    name ∈ (get_or_create_region name d st).region_names := by
  rw [gocr_region_names]
  by_cases hm : name ∈ st.region_names
  · rw [if_pos hm]
    exact hm
  · rw [if_neg hm]
    exact List.mem_append.mpr (Or.inr (List.mem_singleton.mpr rfl))

theorem gocr_mem_region_mono (name x : String) (d : Bool) (st : RunState)
    (h : x ∈ st.region_names) : x ∈ (get_or_create_region name d st).region_names := by
  rw [gocr_region_names]
  by_cases hm : name ∈ st.region_names
  · rw [if_pos hm]
    exact h
  · rw [if_neg hm]
    exact List.mem_append.mpr (Or.inl h)

theorem countryStep_region_names (b : Nat) (d : Bool) (cl : CleanedRow) (st : RunState) :
    (countryStep b d cl st).region_names = st.region_names := by
  simp only [countryStep]
  split
  next hf =>
    by_cases hfc : full_clean_country (toCountry cl) = true
    · rw [if_pos hfc]
      split
      · rw [flushCreate_region_names, enqueueCreate_region_names]
      · rw [enqueueCreate_region_names]
    · rw [if_neg hfc]
  next existing hf =>
    by_cases hch : fieldsChanged existing (toCountry cl) = true
    · rw [if_pos hch]
      split
      · rw [flushUpdate_region_names, enqueueUpdate_region_names]
      · rw [enqueueUpdate_region_names]
    · rw [if_neg hch]

/-- Processing a validated row establishes its own cache fact, from any state. -/
theorem processRow_establishes_fact (b : Nat) (d : Bool) (st : RunState) (r : RawRow)
    (c : CleanedRow) (hv : validate_row r = some c) :
    countryFact (processRow b d st r) c := by
  simp only [processRow, hv]
  constructor
  · rw [countryStep_region_names]
    exact gocr_mem_region c.region d st
  · simp only [countryStep, gocr_countries]
    split
    next hf =>
      by_cases hfc : full_clean_country (toCountry c) = true
      · rw [if_pos hfc]
        left
        split
        · rw [flushCreate_countries, enqueueCreate_countries, gocr_countries,
            findByName_cons, if_pos (show (toCountry c).name = c.name from rfl)]
        · rw [enqueueCreate_countries, gocr_countries, findByName_cons,
            if_pos (show (toCountry c).name = c.name from rfl)]
      · rw [if_neg hfc]
        right
        refine ⟨hf, ?_⟩
        exact Bool.not_eq_true _ ▸ Bool.of_not_eq_true hfc
    next existing hf =>
      by_cases hch : fieldsChanged existing (toCountry c) = true
      · rw [if_pos hch]
        left
        have key : findByName (updateByName st.countries_by_name c.name (toCountry c))
            c.name = some (toCountry c) := by
          rw [findByName_updateByName st.countries_by_name c.name (toCountry c) rfl,
            if_pos rfl, hf]
          rfl
        split
        · rw [flushUpdate_countries, enqueueUpdate_countries, gocr_countries]
          exact key
        · rw [enqueueUpdate_countries, gocr_countries]
          exact key
      · rw [if_neg hch]
        left
        have hex : existing = toCountry c :=
          eq_of_not_fieldsChanged (Bool.of_not_eq_true hch ▸ rfl)
            (findByName_some_name hf)
        rw [hf, hex]

/-- A later row preserves an established cache fact, provided any row
validating to the same name validates to the same cleaned values. -/
theorem processRow_preserves_fact (b : Nat) (d : Bool) (st : RunState) (r : RawRow)
    (c : CleanedRow) (hfact : countryFact st c)
    (hcompat : ∀ c2, validate_row r = some c2 → c2.name = c.name → c2 = c) :
    countryFact (processRow b d st r) c := by
  obtain ⟨hreg, hcache⟩ := hfact
  simp only [processRow]
  rcases hv : validate_row r with _ | c2
  · exact ⟨hreg, hcache⟩
  · constructor
    · rw [countryStep_region_names]
      exact gocr_mem_region_mono c2.region c.region d st hreg
    · simp only [countryStep, gocr_countries]
      split
      next hf =>
        by_cases hfc : full_clean_country (toCountry c2) = true
        · rw [if_pos hfc]
          by_cases hnn : c2.name = c.name
          · -- same name: the old fact forces the full_clean-failure branch,
            -- but this row passes full_clean on the same desired values
            have he : c2 = c := hcompat c2 hv hnn
            subst he
            rcases hcache with hsome | ⟨hnone, hfcf⟩
            · rw [hsome] at hf
              cases hf
            · rw [hfc] at hfcf
              cases hfcf
          · have hne : ¬(toCountry c2).name = c.name := hnn
            split
            · rw [flushCreate_countries, enqueueCreate_countries, gocr_countries,
                findByName_cons, if_neg hne]
              exact hcache
            · rw [enqueueCreate_countries, gocr_countries, findByName_cons, if_neg hne]
              exact hcache
        · rw [if_neg hfc]
          exact hcache
      next existing hf =>
        by_cases hch : fieldsChanged existing (toCountry c2) = true
        · rw [if_pos hch]
          have key : findByName (updateByName st.countries_by_name c2.name (toCountry c2))
              c.name = some (toCountry c) ∨
              (findByName (updateByName st.countries_by_name c2.name (toCountry c2))
                c.name = none ∧ full_clean_country (toCountry c) = false) := by
            rw [findByName_updateByName st.countries_by_name c2.name (toCountry c2) rfl]
            by_cases hnn : c.name = c2.name
            · have he : c2 = c := hcompat c2 hv (hnn.symm)
              subst he
              rw [if_pos hnn, hf]
              exact Or.inl rfl
            · rw [if_neg hnn]
              exact hcache
          split
          · rw [flushUpdate_countries, enqueueUpdate_countries, gocr_countries]
            exact key
          · rw [enqueueUpdate_countries, gocr_countries]
            exact key
        · rw [if_neg hch]
          exact hcache

theorem foldl_preserves_fact (b : Nat) (d : Bool) (t : List RawRow) (st : RunState)
    (c : CleanedRow) (h0 : countryFact st c)
    (hcompat : ∀ r2 ∈ t, ∀ c2, validate_row r2 = some c2 → c2.name = c.name → c2 = c) :
    countryFact (t.foldl (processRow b d) st) c := by
  induction t generalizing st with
  | nil => exact h0
  | cons r2 t2 ih =>
    rw [List.foldl_cons]
    exact ih _
      (processRow_preserves_fact b d st r2 c h0
        (fun c2 hc2 => hcompat r2 (List.mem_cons_self r2 t2) c2 hc2))
      (fun r3 hr3 => hcompat r3 (List.mem_cons_of_mem r2 hr3))

/-- Every validated row of the input leaves its cache fact in the final fold
state, provided equal names imply equal cleaned rows. -/
theorem foldl_fact_of_mem (b : Nat) (d : Bool) (rows : List RawRow) (st : RunState)
    (r : RawRow) (c : CleanedRow) (hmem : r ∈ rows) (hv : validate_row r = some c)
    (hdup : ∀ r2 ∈ rows, ∀ c2, validate_row r2 = some c2 → c2.name = c.name → c2 = c) :
    countryFact (rows.foldl (processRow b d) st) c := by
  obtain ⟨s, t, rfl⟩ := List.append_of_mem hmem
  rw [List.foldl_append, List.foldl_cons]
  exact foldl_preserves_fact b d t _ c
    (processRow_establishes_fact b d _ r c hv)
    (fun r2 hr2 => hdup r2 (List.mem_append.mpr (Or.inr (List.mem_cons_of_mem r hr2))))

theorem finalize_countries_by_name (d : Bool) (st : RunState) :
    (finalize d st).countries_by_name = st.countries_by_name := by
  unfold finalize
  by_cases h1 : st.to_create.isEmpty = true
  · rw [if_pos h1]
    by_cases h2 : st.to_update.isEmpty = true
    · rw [if_pos h2]
    · rw [if_neg h2, flushUpdate_countries]
  · rw [if_neg h1]
    by_cases h2 : st.to_update.isEmpty = true
    · rw [if_pos (show (flushCreate d st).to_update.isEmpty = true from h2),
        flushCreate_countries]
    · rw [if_neg (show ¬(flushCreate d st).to_update.isEmpty = true from h2),
        flushUpdate_countries, flushCreate_countries]

theorem finalize_region_names (d : Bool) (st : RunState) :
    (finalize d st).region_names = st.region_names := by
  unfold finalize
  by_cases h1 : st.to_create.isEmpty = true
  · rw [if_pos h1]
    by_cases h2 : st.to_update.isEmpty = true
    · rw [if_pos h2]
    · rw [if_neg h2, flushUpdate_region_names]
  · rw [if_neg h1]
    by_cases h2 : st.to_update.isEmpty = true
    · rw [if_pos (show (flushCreate d st).to_update.isEmpty = true from h2),
        flushCreate_region_names]
    · rw [if_neg (show ¬(flushCreate d st).to_update.isEmpty = true from h2),
        flushUpdate_region_names, flushCreate_region_names]

/-! ## The second run: rows whose facts already hold are all skipped -/

theorem processRow_skips_row (b : Nat) (d : Bool) (st : RunState) (r : RawRow)
    (h : ∀ c, validate_row r = some c →
      c.region ∈ st.region_names ∧
      (findByName st.countries_by_name c.name = some (toCountry c) ∨
       (findByName st.countries_by_name c.name = none ∧
        full_clean_country (toCountry c) = false))) :
    processRow b d st r = { st with skipped := st.skipped + 1 } := by
  rcases hv : validate_row r with _ | c
  · simp only [processRow, hv]
  · simp only [processRow, hv]
    obtain ⟨hreg, hcache⟩ := h c hv
    have hg : get_or_create_region c.region d st = st := by
      unfold get_or_create_region
      rw [if_pos hreg]
    rw [hg]
    rcases hcache with hsome | ⟨hnone, hfcf⟩
    · simp only [countryStep, hsome]
      rw [if_neg (by rw [fieldsChanged_self]; exact Bool.false_ne_true)]
    · simp only [countryStep, hnone]
      rw [if_neg (by rw [hfcf]; exact Bool.false_ne_true)]

theorem foldl_all_skip (b : Nat) (d : Bool) (rows : List RawRow) (st : RunState)
    (h : ∀ r ∈ rows, ∀ c, validate_row r = some c →
      c.region ∈ st.region_names ∧
      (findByName st.countries_by_name c.name = some (toCountry c) ∨
       (findByName st.countries_by_name c.name = none ∧
        full_clean_country (toCountry c) = false))) :
    rows.foldl (processRow b d) st = { st with skipped := st.skipped + rows.length } := by
  induction rows generalizing st with
  | nil => rfl
  | cons r t ih =>
    rw [List.foldl_cons, processRow_skips_row b d st r (h r (List.mem_cons_self r t)),
      ih { st with skipped := st.skipped + 1 }
        (fun r2 hr2 => h r2 (List.mem_cons_of_mem r hr2))]
    have harith : st.skipped + 1 + t.length = st.skipped + (t.length + 1) := by omega
    rw [harith]
    rfl

/-- A whole run over a store in which every validated row's fact already holds
reports `(0, 0, len(data))`. -/
theorem process_records_all_skip (rows : List RawRow) (b : Nat) (d : Bool)
    (store1 : Store)
    (h : ∀ r ∈ rows, ∀ c, validate_row r = some c →
      c.region ∈ store1.regions ∧
      (findByName store1.countries c.name = some (toCountry c) ∨
       (findByName store1.countries c.name = none ∧
        full_clean_country (toCountry c) = false))) :
    (process_records rows b d false store1).1 = (0, 0, rows.length) := by
  have hfold := foldl_all_skip b d rows
    ⟨store1, store1.regions, store1.countries, [], [], 0, 0, 0⟩ h
  have main : ((finalize d (rows.foldl (processRow b d)
      ⟨store1, store1.regions, store1.countries, [], [], 0, 0, 0⟩)).created,
      (finalize d (rows.foldl (processRow b d)
      ⟨store1, store1.regions, store1.countries, [], [], 0, 0, 0⟩)).updated,
      (finalize d (rows.foldl (processRow b d)
      ⟨store1, store1.regions, store1.countries, [], [], 0, 0, 0⟩)).skipped) =
      ((0 : Nat), (0 : Nat), rows.length) := by
    rw [hfold]
    show ((0 : Nat), (0 : Nat), 0 + rows.length) = ((0 : Nat), (0 : Nat), rows.length)
    rw [Nat.zero_add]
  exact main

/-- After a real run, the stored row for each validated input row's name holds
exactly its desired values (or the name is absent and its desired values fail
`full_clean`), and its region is stored — provided rows agreeing on a name
agree on all cleaned values. -/
theorem process_records_run1_fact (rows : List RawRow) (b : Nat) (reset : Bool)
    (store : Store) (r : RawRow) (c : CleanedRow)
    (hmem : r ∈ rows) (hv : validate_row r = some c)
    (hdup : ∀ r2 ∈ rows, ∀ c2, validate_row r2 = some c2 → c2.name = c.name → c2 = c) :
    c.region ∈ ((process_records rows b false reset store).2).regions ∧
    (findByName ((process_records rows b false reset store).2).countries c.name =
       some (toCountry c) ∨
     (findByName ((process_records rows b false reset store).2).countries c.name = none ∧
      full_clean_country (toCountry c) = false)) := by
  have main : ∀ s' : Store,
      c.region ∈ ((finalize false (rows.foldl (processRow b false)
          ⟨s', s'.regions, s'.countries, [], [], 0, 0, 0⟩)).store).regions ∧
      (findByName ((finalize false (rows.foldl (processRow b false)
          ⟨s', s'.regions, s'.countries, [], [], 0, 0, 0⟩)).store).countries c.name =
         some (toCountry c) ∨
       (findByName ((finalize false (rows.foldl (processRow b false)
          ⟨s', s'.regions, s'.countries, [], [], 0, 0, 0⟩)).store).countries c.name = none ∧
        full_clean_country (toCountry c) = false)) := by
    intro s'
    have hRI := foldl_RealInv b rows _ (RealInv_init s')
    obtain ⟨hlook, hregs⟩ := finalize_real_store _ hRI
    have hfact := foldl_fact_of_mem b false rows
      ⟨s', s'.regions, s'.countries, [], [], 0, 0, 0⟩ r c hmem hv hdup
    exact ⟨hregs ▸ hfact.1, hlook c.name ▸ hfact.2⟩
  exact main _

/-! ## Claim C2 -/

set_option maxRecDepth 4000 in
/-- C2 counterexample: with two rows sharing the name `Testland` but
conflicting populations, the second run over the unchanged store reports
`(0 created, 2 updated, 0 skipped)` instead of `(0, 0, N)` — each run flips
the stored population between the two conflicting values, so the import is
not idempotent as stated. -/
theorem c2_counterexample :
    (process_records [testlandRow, testlandRow99] 10 false false
        (process_records [testlandRow, testlandRow99] 10 false false ⟨[], []⟩).2).1 ≠
      (0, 0, ([testlandRow, testlandRow99] : List RawRow).length) := by
  decide

/-- C2 (amended): running the import twice on the same dataset with no
intervening changes is idempotent — the second run reports `0` created, `0`
updated and `N` skipped — provided any two rows that validate to the same
country name validate to the same cleaned values (the real feed keys rows by
unique name, so this holds there). -/
theorem c2_second_run_skips_everything (rows : List RawRow) (b1 b2 : Nat)
    (reset : Bool) (store : Store)
    (hdup : ∀ r1 ∈ rows, ∀ r2 ∈ rows, ∀ c1 c2, validate_row r1 = some c1 →
      validate_row r2 = some c2 → c1.name = c2.name → c1 = c2) :
    (process_records rows b2 false false
        (process_records rows b1 false reset store).2).1 = (0, 0, rows.length) := by
  apply process_records_all_skip
  intro r hr c hv
  exact process_records_run1_fact rows b1 reset store r c hr hv
    (fun r2 hr2 c2 hv2 hn2 => hdup r2 hr2 r hr c2 c hv2 hv hn2)

/-- C2 witness: importing the single-row `Testland` dataset twice into an
empty store makes the second run report `(0, 0, 1)`. -/
theorem c2_witness :
    (process_records [testlandRow] 5 false false
        (process_records [testlandRow] 5 false false ⟨[], []⟩).2).1 =
      (0, 0, ([testlandRow] : List RawRow).length) :=
  c2_second_run_skips_everything [testlandRow] 5 5 false ⟨[], []⟩ (by
    intro r1 h1 r2 h2 c1 c2 e1 e2 _
    have h1' : r1 = testlandRow := List.mem_singleton.mp h1
    have h2' : r2 = testlandRow := List.mem_singleton.mp h2
    subst h1'
    subst h2'
    rw [e1] at e2
    exact Option.some.inj e2)

/-! ## Structure of `validate_row` in its `topLevelDomain` and `capital` fields -/

theorem pyStripChars_wrap (mid : List Char) :
    pyStripChars ('[' :: (mid ++ [']'])) = '[' :: (mid ++ [']']) := by
  unfold pyStripChars
  rw [List.dropWhile_cons_of_neg (show ¬isPyWs '[' = true by decide)]
  rw [List.reverse_cons, List.reverse_append]
  simp only [List.reverse_singleton, List.cons_append, List.nil_append]
  rw [List.dropWhile_cons_of_neg (show ¬isPyWs ']' = true by decide)]
  simp

/-- `json.dumps` of a list starts with `[` and ends with `]`: stripping it is
the identity and it is never empty. -/
theorem pyStrip_dumps_list (xs : List TldEntry) :
    pyStrip (jsonDumpsTldInput (TldInput.list xs)) = jsonDumpsTldInput (TldInput.list xs) ∧
    (jsonDumpsTldInput (TldInput.list xs)).isEmpty = false := by
  have hdata : (jsonDumpsTldInput (TldInput.list xs)).data =
      '[' :: ((joinSep ", " (xs.map jsonDumpsEntry)).data ++ [']']) := by
    show ("[" ++ joinSep ", " (xs.map jsonDumpsEntry) ++ "]").data = _
    rw [String.data_append, String.data_append]
    rfl
  constructor
  · show String.mk (pyStripChars (jsonDumpsTldInput (TldInput.list xs)).data) = _
    rw [hdata, pyStripChars_wrap, ← hdata]
  · rcases hb : (jsonDumpsTldInput (TldInput.list xs)).isEmpty with _ | _
    · rfl
    · have he := (String.isEmpty_iff _).mp hb
      rw [he] at hdata
      cases hdata

/-- `validate_row` factors through the `capital` field: a present capital whose
stripped value fits the 100-character bound does not affect whether the row
validates, and on success the cleaned capital is the stripped value, with the
empty string normalized to `None` by `clean_capital`. -/
theorem validate_row_capital (r : RawRow) (s : String) (hcap : r.capital = some s)
    (hlen : (pyStrip s).length ≤ 100) :
    validate_row r = (validate_row { r with capital := some "" }).map
      (fun c => { c with capital :=
        if (pyStrip s).isEmpty then none else some (pyStrip s) }) := by
  obtain ⟨nm, rg, a2, a3, p, t, cp⟩ := r
  simp only [] at hcap
  subst hcap
  rcases nm with _ | nm
  · rfl
  rcases rg with _ | rg
  · rfl
  rcases a2 with _ | a2
  · rfl
  rcases a3 with _ | a3
  · rfl
  rcases p with _ | p
  · rfl
  simp only [validate_row]
  rcases h1 : cleanCharField nm true 1 200 with _ | name
  · rfl
  rcases h2 : cleanCharField rg true 1 100 with _ | region
  · rfl
  rcases h3 : cleanCharField a2 true 2 2 with _ | a2c
  · rfl
  rcases h4 : cleanCharField a3 true 3 3 with _ | a3c
  · rfl
  by_cases hp : p < 0
  · simp [hp]
  have e3 : ¬100 < (pyStrip ("" : String)).length := by decide
  have e4 : ¬100 < (pyStrip s).length := by omega
  rcases t with _ | ti
  · have e1 : (pyStrip (jsonDumpsTldInput (TldInput.list []))).isEmpty = false := by decide
    have e2 : ¬2000 < (pyStrip (jsonDumpsTldInput (TldInput.list []))).length := by decide
    simp [hp, e1, e2, e3, e4]
  · rcases ti with xs | s2
    · obtain ⟨estrip, hne⟩ := pyStrip_dumps_list xs
      by_cases hL : 2000 < (jsonDumpsTldInput (TldInput.list xs)).length
      · simp [hp, estrip, hne, hL]
      · simp [hp, estrip, hne, hL, e3, e4]
    · by_cases hE : (pyStrip (jsonDumpsTldInput (TldInput.str s2))).isEmpty = true
      · simp [hp, hE]
      · by_cases hL : 2000 < (pyStrip (jsonDumpsTldInput (TldInput.str s2))).length
        · simp [hp, hE, hL]
        · simp [hp, hE, hL]

/-- `validate_row` factors through a native `topLevelDomain` list: provided the
dumped input string fits the form field's 2000-character bound, the entries have
no influence on whether the row validates, and on success the stored value is
the compact dump of exactly the surviving entries. -/
theorem validate_row_tld_list (r : RawRow) (xs : List TldEntry)
    (ht : r.topLevelDomain = some (TldInput.list xs))
    (hlen : (jsonDumpsTldInput (TldInput.list xs)).length ≤ 2000) :
    validate_row r =
      (validate_row { r with topLevelDomain := some (TldInput.list []) }).map
        (fun c => { c with topLevelDomain :=
          jsonDumpsCompactStrings (clean_topLevelDomain_entries xs) }) := by
  obtain ⟨nm, rg, a2, a3, p, t, cp⟩ := r
  simp only [] at ht
  subst ht
  rcases nm with _ | nm
  · rfl
  rcases rg with _ | rg
  · rfl
  rcases a2 with _ | a2
  · rfl
  rcases a3 with _ | a3
  · rfl
  rcases p with _ | p
  · rfl
  simp only [validate_row]
  rcases h1 : cleanCharField nm true 1 200 with _ | name
  · rfl
  rcases h2 : cleanCharField rg true 1 100 with _ | region
  · rfl
  rcases h3 : cleanCharField a2 true 2 2 with _ | a2c
  · rfl
  rcases h4 : cleanCharField a3 true 3 3 with _ | a3c
  · rfl
  by_cases hp : p < 0
  · simp [hp]
  obtain ⟨estrip, hne⟩ := pyStrip_dumps_list xs
  have e1 : (pyStrip (jsonDumpsTldInput (TldInput.list []))).isEmpty = false := by decide
  have e2 : ¬2000 < (pyStrip (jsonDumpsTldInput (TldInput.list []))).length := by decide
  have eL : ¬2000 < (pyStrip (jsonDumpsTldInput (TldInput.list xs))).length := by
    rw [estrip]; omega
  by_cases hC : 100 < (pyStrip (cp.getD "")).length
  · simp [hp, estrip, hne, eL, e1, e2, hC, hlen]
  · simp [hp, estrip, hne, eL, e1, e2, hC, hlen]

/-- A raw `topLevelDomain` that is a plain string never validates: the
`json.dumps`/`json.loads` round trip of `validate_row` and
`clean_topLevelDomain` turns it into a JSON string literal, which parses back
to a string and hits the `"topLevelDomain must be a list."` branch. -/
theorem validate_row_tld_str (r : RawRow) (s2 : String)
    (ht : r.topLevelDomain = some (TldInput.str s2)) :
    validate_row r = none := by
  obtain ⟨nm, rg, a2, a3, p, t, cp⟩ := r
  simp only [] at ht
  subst ht
  rcases nm with _ | nm
  · rfl
  rcases rg with _ | rg
  · rfl
  rcases a2 with _ | a2
  · rfl
  rcases a3 with _ | a3
  · rfl
  rcases p with _ | p
  · rfl
  simp only [validate_row]
  rcases h1 : cleanCharField nm true 1 200 with _ | name
  · rfl
  rcases h2 : cleanCharField rg true 1 100 with _ | region
  · rfl
  rcases h3 : cleanCharField a2 true 2 2 with _ | a2c
  · rfl
  rcases h4 : cleanCharField a3 true 3 3 with _ | a3c
  · rfl
  by_cases hp : p < 0
  · simp [hp]
  by_cases hE : (pyStrip (jsonDumpsTldInput (TldInput.str s2))).isEmpty = true
  · simp [hp, hE]
  · by_cases hL : 2000 < (pyStrip (jsonDumpsTldInput (TldInput.str s2))).length
    · simp [hp, hE, hL]
    · simp [hp, hE, hL]

/-- Rows lacking the `topLevelDomain` and `capital` keys validate exactly as if
they carried the empty list and the empty string (`row.get` defaults). -/
theorem validate_row_missing_tld_capital (r : RawRow) (ht : r.topLevelDomain = none)
    (hc : r.capital = none) :
    validate_row r =
      validate_row { r with topLevelDomain := some (TldInput.list []),
                            capital := some "" } := by
  obtain ⟨nm, rg, a2, a3, p, t, cp⟩ := r
  simp only [] at ht hc
  subst ht
  subst hc
  rfl

/-! ## Claim C4 -/

set_option maxRecDepth 4000 in
/-- C4 counterexample: the pipeline rejects a `topLevelDomain` given as a
JSON-encoded array string.  The very same row with the equivalent native list
validates, but with the string `"[\".tl\"]"` the row fails validation instead
of having its surviving entries stored. -/
theorem c4_counterexample :
    (validate_row testlandRow).isSome = true ∧
    validate_row { testlandRow with
      topLevelDomain := some (TldInput.str "[\".tl\"]") } = none := by
  decide

/-- C4 (amended): for a *native* `topLevelDomain` list whose `json.dumps`
encoding fits the form field's 2000-character bound, validation keeps exactly
the string entries that strip to a non-empty match of `^\.[A-Za-z0-9-]{2,}$`
(in order, others dropped, the row never failing because of a dropped entry)
and stores them as a compact JSON array string; a JSON-encoded array *string*
instead fails the whole row; on the claim's example list the stored value is
`"[\".ok\",\".also-ok\"]"`. -/
theorem c4_tld_filtering :
    (∀ (r : RawRow) (xs : List TldEntry), r.topLevelDomain = some (TldInput.list xs) →
      (jsonDumpsTldInput (TldInput.list xs)).length ≤ 2000 →
      validate_row r =
        (validate_row { r with topLevelDomain := some (TldInput.list []) }).map
          (fun c => { c with topLevelDomain :=
            jsonDumpsCompactStrings (clean_topLevelDomain_entries xs) })) ∧
    (∀ (r : RawRow) (s2 : String), r.topLevelDomain = some (TldInput.str s2) →
      validate_row r = none) ∧
    (validate_row { testlandRow with topLevelDomain := some (TldInput.list
        [.str ".ok", .str " ", .num 123, .str "bad", .str ".also-ok"]) }).map
      (fun c => c.topLevelDomain) = some "[\".ok\",\".also-ok\"]" := by
  refine ⟨validate_row_tld_list, validate_row_tld_str, ?_⟩
  decide

/-- C4 witness: the list part applied at a one-entry list and the string part
applied at a concrete string. -/
theorem c4_witness :
    validate_row { testlandRow with topLevelDomain := some (TldInput.list [.str ".ok"]) } =
      (validate_row { testlandRow with topLevelDomain := some (TldInput.list []) }).map
        (fun c => { c with topLevelDomain := jsonDumpsCompactStrings (clean_topLevelDomain_entries [.str ".ok"]) }) ∧
    validate_row { testlandRow with topLevelDomain := some (TldInput.str "x") } = none :=
  ⟨c4_tld_filtering.1 _ [.str ".ok"] rfl (by decide),
   c4_tld_filtering.2.1 _ "x" rfl⟩

/-! ## Claim C8 -/

set_option maxRecDepth 8000 in
/-- C8 counterexample: `capital` carries `max_length=100`, so a row whose other
fields are valid but whose capital strips to 101 characters fails validation
instead of succeeding with the trimmed capital kept. -/
theorem c8_counterexample :
    (validate_row { testlandRow with capital := some "" }).isSome = true ∧
    validate_row { testlandRow with
      capital := some (String.mk (List.replicate 101 'a')) } = none := by
  constructor
  · decide
  · decide

/-- C8 (amended): for every row with a present capital whose stripped value is
at most 100 characters, the capital has no influence on whether the row
validates, and on success the cleaned capital is the stripped string when
non-empty and `None` otherwise. -/
theorem c8_capital_normalization (r : RawRow) (s : String) (hcap : r.capital = some s)
    (hlen : (pyStrip s).length ≤ 100) :
    validate_row r = (validate_row { r with capital := some "" }).map
      (fun c => { c with capital :=
        if (pyStrip s).isEmpty then none else some (pyStrip s) }) :=
  validate_row_capital r s hcap hlen

/-- C8 witness: a padded capital is kept stripped. -/
theorem c8_witness :
    validate_row { testlandRow with capital := some "  Exam City  " } =
      (validate_row { testlandRow with capital := some "" }).map
        (fun c => { c with capital := (if (pyStrip "  Exam City  ").isEmpty then none
                                       else some (pyStrip "  Exam City  ")) }) :=
  c8_capital_normalization _ "  Exam City  " rfl (by decide)

/-! ## Claim C10 -/

/-- C10: rows lacking the `topLevelDomain` and `capital` keys entirely are
validated as if they carried `[]` and `""` (so only name, region, alpha2Code,
alpha3Code and population are required), and on success the cleaned row stores
`topLevelDomain = "[]"` and `capital = None`. -/
theorem c10_missing_keys_accepted (r : RawRow) (ht : r.topLevelDomain = none)
    (hc : r.capital = none) :
    validate_row r =
      validate_row { r with topLevelDomain := some (TldInput.list []),
                            capital := some "" } ∧
    ∀ c, validate_row r = some c → c.topLevelDomain = "[]" ∧ c.capital = none := by
  have hbase := validate_row_missing_tld_capital r ht hc
  refine ⟨hbase, ?_⟩
  intro c hcsome
  have hb2 : validate_row { r with topLevelDomain := some (TldInput.list []),
                                   capital := some "" } = some c := by
    rw [← hbase]; exact hcsome
  have htld := validate_row_tld_list
    { r with topLevelDomain := some (TldInput.list []), capital := some "" } []
    rfl (by decide)
  have hcap := validate_row_capital
    { r with topLevelDomain := some (TldInput.list []), capital := some "" } ""
    rfl (by decide)
  rw [hb2] at htld hcap
  constructor
  · have := Option.some.inj htld
    have h2 := congrArg CleanedRow.topLevelDomain this
    simpa using h2
  · have := Option.some.inj hcap
    have h2 := congrArg CleanedRow.capital this
    simpa using h2

/-- The cleaned row produced for `testlandRow` without its optional keys. -/
def testlandCleanedBare : CleanedRow :=
  { name := "Testland", region := "Europe", alpha2Code := "TL", alpha3Code := "TST",
    population := 12345, topLevelDomain := "[]", capital := none }

/-- C10 witness: dropping both optional keys from `testlandRow` still
validates, as the defaulted row does, and the cleaned row carries `"[]"` and
`None`. -/
theorem c10_witness :
    validate_row { testlandRow with topLevelDomain := none, capital := none } =
      validate_row { testlandRow with topLevelDomain := some (TldInput.list []),
                                      capital := some "" } ∧
    testlandCleanedBare.topLevelDomain = "[]" ∧ testlandCleanedBare.capital = none :=
  ⟨(c10_missing_keys_accepted _ rfl rfl).1,
   (c10_missing_keys_accepted
      { testlandRow with topLevelDomain := none, capital := none } rfl rfl).2
     testlandCleanedBare (by decide)⟩

/-! ## `APIClient.fetch_data` (api_client.py) and its retry policy -/

/-- The parsed body of one HTTP response. -/
inductive FetchBody where
  | invalidJson                      -- response.json() raises ValueError
  | notArray                         -- JSON parsed but not a list
  | array (rows : List RawRow)       -- a JSON array of row objects
deriving DecidableEq

/-- The outcome of one `requests.get` attempt. -/
inductive AttemptOutcome where
  | connFailure                      -- requests.ConnectionError
  | timeout                          -- requests.Timeout
  | response (status : Nat) (body : FetchBody)
deriving DecidableEq

/-- The errors `fetch_data` can raise. -/
inductive FetchError where
  | connection                       -- network error (RequestException)
  | timeoutErr
  | http (status : Nat)              -- raise_for_status's HTTPError
  | invalidJson                      -- ValueError from response.json()
  | notArray                         -- ValueError "API response is not a valid JSON array"
  | emptyArray                       -- ValueError "Empty response from API"
deriving DecidableEq

/-- One pass through the body of `fetch_data`: GET, `raise_for_status`
(raises `HTTPError` for 4xx and 5xx), JSON parse, the list check, the
non-empty check. -/
def fetchAttempt (o : AttemptOutcome) : Except FetchError (List RawRow) :=
  match o with
  | .connFailure => .error .connection
  | .timeout => .error .timeoutErr
  | .response status body =>
    if 400 ≤ status ∧ status < 600 then .error (.http status)
    else
      match body with
      | .invalidJson => .error .invalidJson
      | .notArray => .error .notArray
      | .array [] => .error .emptyArray
      | .array rows => .ok rows

/-- `_retryable(exc)`: connection issues, timeouts, or 5xx `HTTPError`s. -/
def retryable (e : FetchError) : Bool :=
  match e with
  | .connection => true
  | .timeoutErr => true
  | .http status => decide (500 ≤ status) && decide (status < 600)
  | _ => false

/-- The tenacity loop: `stop_after_attempt(3)`, `retry_if_exception(_retryable)`,
`reraise=True`.  `fuel` is the number of attempts still allowed (including the
current one); returns the result together with the number of attempts made. -/
def fetchLoop (f : Nat → AttemptOutcome) : Nat → Nat → Except FetchError (List RawRow) × Nat
  | 0, i => (.error .connection, i)   -- unreachable: the loop starts with fuel 3 ≥ 1
  | fuel + 1, i =>
    match fetchAttempt (f i) with
    | .ok v => (.ok v, i + 1)
    | .error e =>
      if retryable e ∧ fuel ≠ 0 then fetchLoop f fuel (i + 1)
      else (.error e, i + 1)

/-- `APIClient.fetch_data`, over the stream of attempt outcomes the network
would produce: up to 3 attempts. -/
def fetch_data (f : Nat → AttemptOutcome) : Except FetchError (List RawRow) × Nat :=
  fetchLoop f 3 0

theorem fetchLoop_attempts (f : Nat → AttemptOutcome) :
    ∀ fuel i, (fetchLoop f fuel i).2 ≤ i + fuel := by
  intro fuel
  induction fuel with
  | zero => intro i; exact Nat.le_refl i
  | succ fu ih =>
    intro i
    show (fetchLoop f (fu + 1) i).2 ≤ i + (fu + 1)
    unfold fetchLoop
    rcases fetchAttempt (f i) with e | v
    · simp only []
      split
      · calc (fetchLoop f fu (i + 1)).2 ≤ (i + 1) + fu := ih (i + 1)
          _ = i + (fu + 1) := by omega
      · omega
    · simp only []
      omega

/-! ## Claim C6 -/

/-- C6: `fetch_data` makes at most 3 attempts; a first attempt failing
non-retryably stops immediately with that error, and any retry means the first
attempt failed retryably; retryable failures are exactly connection failures,
timeouts and HTTP 5xx — a 4xx `HTTPError` and the payload-shape `ValueError`s
(not-an-array, empty array, undecodable JSON) never retry, and the
payload-shape errors are distinct from the network errors. -/
theorem c6_fetch_retry_policy :
    (∀ f : Nat → AttemptOutcome, (fetch_data f).2 ≤ 3) ∧
    (∀ (f : Nat → AttemptOutcome) (e : FetchError), fetchAttempt (f 0) = .error e →
      retryable e = false → fetch_data f = (.error e, 1)) ∧
    (∀ f : Nat → AttemptOutcome, 1 < (fetch_data f).2 →
      ∃ e, fetchAttempt (f 0) = .error e ∧ retryable e = true) ∧
    (∀ s, 400 ≤ s → s < 500 → retryable (.http s) = false) ∧
    retryable .invalidJson = false ∧ retryable .notArray = false ∧
    retryable .emptyArray = false ∧
    (∀ s, 500 ≤ s → s < 600 → retryable (.http s) = true) ∧
    retryable .connection = true ∧ retryable .timeoutErr = true ∧
    FetchError.invalidJson ≠ FetchError.connection ∧
    FetchError.notArray ≠ FetchError.connection ∧
    FetchError.emptyArray ≠ FetchError.connection ∧
    FetchError.invalidJson ≠ FetchError.timeoutErr ∧
    FetchError.notArray ≠ FetchError.timeoutErr ∧
    FetchError.emptyArray ≠ FetchError.timeoutErr := by
  refine ⟨?_, ?_, ?_, ?_, rfl, rfl, rfl, ?_, rfl, rfl,
    by decide, by decide, by decide, by decide, by decide, by decide⟩
  · intro f
    have h := fetchLoop_attempts f 3 0
    simpa using h
  · intro f e h hr
    show fetchLoop f 3 0 = (.error e, 1)
    unfold fetchLoop
    rw [h]
    simp [hr]
  · intro f h
    rcases hx : fetchAttempt (f 0) with e | v
    · by_cases hr : retryable e = true
      · exact ⟨e, rfl, hr⟩
      · have : fetch_data f = (.error e, 1) := by
          show fetchLoop f 3 0 = _
          unfold fetchLoop
          rw [hx]
          simp [Bool.of_not_eq_true hr]
        rw [this] at h
        cases h with
        | step h2 => cases h2
    · have : fetch_data f = (.ok v, 1) := by
        show fetchLoop f 3 0 = _
        unfold fetchLoop
        rw [hx]
      rw [this] at h
      cases h with
      | step h2 => cases h2
  · intro s h1 h2
    show (decide (500 ≤ s) && decide (s < 600)) = false
    have : ¬500 ≤ s := by omega
    simp [this]
  · intro s h1 h2
    show (decide (500 ≤ s) && decide (s < 600)) = true
    simp [h1, h2]

/-- A stream of outcomes whose first attempt is an HTTP 404. -/
def attempts404 : Nat → AttemptOutcome := fun _ => .response 404 (.array [])

/-- C6 witness: on a 404 the client stops after exactly one attempt with the
`HTTPError`, and the attempt counter is within the 3-attempt budget. -/
theorem c6_witness :
    (fetch_data attempts404).2 ≤ 3 ∧
    fetch_data attempts404 = (.error (.http 404), 1) :=
  ⟨c6_fetch_retry_policy.1 attempts404,
   c6_fetch_retry_policy.2.1 attempts404 (.http 404) rfl rfl⟩

/-! ## The stats read path: `region_stats.py`, `helper.py`, `StatsQueryForm`
and the `stats` view (views.py) -/

/-- One aggregated row of `get_region_stats`, i.e. one element of
`.values("name", "number_countries", "total_population")`. -/
structure RegionStat where
  name : String
  number_countries : Nat
  total_population : Int
deriving DecidableEq

/-- ASCII lowercasing, `str.lower()` on the ASCII data the model stores. -/
def lowerAscii (s : String) : String := String.mk (s.data.map Char.toLower)

/-- `needle` starts `hay` (character lists). -/
def charsStartWith : List Char → List Char → Bool
  | [], _ => true
  | _ :: _, [] => false
  | a :: as, b :: bs => a == b && charsStartWith as bs

/-- `needle` occurs contiguously inside `hay` (character lists). -/
def charsContain (needle : List Char) : List Char → Bool
  | [] => needle.isEmpty
  | b :: bs => charsStartWith needle (b :: bs) || charsContain needle bs

/-- Django `name__icontains=needle` on SQLite with ASCII data:
case-insensitive substring containment. -/
def icontains (hay needle : String) : Bool :=
  charsContain (lowerAscii needle).data (lowerAscii hay).data

/-- Insertion step of sorting by region name; `order_by("name")` sorts by the
database BINARY collation on ASCII data, i.e. code point order (`String.lt`). -/
def insertByName (x : RegionStat) : List RegionStat → List RegionStat
  | [] => [x]
  | y :: ys =>
      if decide (y.name < x.name) then y :: insertByName x ys else x :: y :: ys

def sortByName (l : List RegionStat) : List RegionStat := l.foldr insertByName []

/-- The annotated values of one `Region` row:
`number_countries = Count("countries", distinct=True)` (country rows are
pairwise distinct objects, so the distinct count is the plain count) and
`total_population = Coalesce(Sum("countries__population"), 0)` (the sum of an
empty list is `0`, which is exactly what the `Coalesce` supplies). -/
def regionStatRow (store : Store) (rn : String) : RegionStat :=
  { name := rn,
    number_countries := (store.countries.filter fun c => c.region == rn).length,
    total_population :=
      ((store.countries.filter fun c => c.region == rn).map
        fun c => c.population).sum }

/-- `get_region_stats` (services/region_stats.py): one aggregated row per
`Region`, ordered by region name; when `name_filter` is truthy (neither `None`
nor the empty string) the rows are filtered by
`name__icontains=name_filter.strip()`.  The filter is applied to the ordered
queryset, so the order of the surviving rows is unchanged. -/
def get_region_stats (store : Store) (name_filter : Option String) :
    List RegionStat :=
  let base := sortByName (store.regions.map (regionStatRow store))
  match name_filter with
  | none => base
  | some f =>
      if f.isEmpty then base
      else base.filter fun r => icontains r.name (pyStrip f)

/-- `Paginator.num_pages` with the default `orphans=0`,
`allow_empty_first_page=True`: `ceil(max(1, count) / per_page)`.  Only called
with `per_page ≥ 1` (the form enforces `1 ≤ per_page ≤ 100`; `per_page = 0`
would be a `ZeroDivisionError` in Python and is unreachable). -/
def num_pages (count per_page : Nat) : Nat :=
  (max 1 count + per_page - 1) / per_page

/-- `helper.paginate_queryset`: `Paginator.page(number)` raises `EmptyPage`
when the integer page number is `< 1` or `> num_pages`; the helper catches
`EmptyPage` and serves the last page instead.  (`PageNotAnInteger` is
unreachable from the view: the form has already produced an `int`.)  The page
object slices `object_list[(number-1)*per_page : number*per_page]`.  Returns
the served objects together with the served page number. -/
def paginate_queryset (items : List RegionStat) (page : Int) (per_page : Nat) :
    List RegionStat × Nat :=
  let np := num_pages items.length per_page
  let served : Nat := if page < 1 ∨ (np : Int) < page then np else page.toNat
  ((items.drop ((served - 1) * per_page)).take per_page, served)

/-- The metadata dict built by `helper.page_meta`. -/
structure PageMeta where
  total_regions : Nat
  page : Nat
  total_pages : Nat
  per_page : Nat
  has_next : Bool
  has_previous : Bool
deriving DecidableEq

/-- `page_meta(page_obj)`: `page_obj.has_next()` is `number < num_pages`,
`page_obj.has_previous()` is `number > 1`. -/
def page_meta (count served np pp : Nat) : PageMeta :=
  { total_regions := count, page := served, total_pages := np, per_page := pp,
    has_next := decide (served < np), has_previous := decide (1 < served) }

/-- `django.forms.IntegerField.re_decimal = re.compile(r"\.0*\s*$")` applied
by `sub("", ...)`: remove one trailing group `.0…0` followed by optional
trailing whitespace.  Reversed, that trailing group is whitespace, then zeros,
then the dot; if no dot closes the group the string is left unchanged. -/
def stripDecimalZeros (l : List Char) : List Char :=
  match ((l.reverse.dropWhile isPyWs).dropWhile fun c => c == '0') with
  | '.' :: rest => rest.reverse
  | _ => l

/-- Value of the digit body of a Python `int()` literal, after the first
digit: further digits, with single underscores allowed between digits
(`int("1_000")`). -/
def pyDigitsAux (acc : Nat) : List Char → Option Nat
  | [] => some acc
  | '_' :: c :: rest =>
      if c.isDigit then pyDigitsAux (acc * 10 + (c.toNat - 48)) rest else none
  | c :: rest =>
      if c.isDigit then pyDigitsAux (acc * 10 + (c.toNat - 48)) rest else none

/-- Digit body of a Python `int()` literal: nonempty, starts with a digit. -/
def pyDigitsVal : List Char → Option Nat
  | [] => none
  | c :: rest => if c.isDigit then pyDigitsAux (c.toNat - 48) rest else none

/-- Python `int(s)` on a string: surrounding whitespace is ignored, an
optional single sign precedes the digits; anything else is a `ValueError`. -/
def pyIntCore (l : List Char) : Option Int :=
  match pyStripChars l with
  | '-' :: ds => (pyDigitsVal ds).map fun n => -(n : Int)
  | '+' :: ds => (pyDigitsVal ds).map fun n => (n : Int)
  | ds => (pyDigitsVal ds).map fun n => (n : Int)

/-- `forms.IntegerField.to_python` on a nonempty string:
`int(re_decimal.sub("", str(value)))`, `None` on failure (a
`ValidationError` in Django). -/
def pyIntParse (s : String) : Option Int :=
  pyIntCore (stripDecimalZeros s.data)

/-- `IntegerField(min_value=lo[, max_value=hi], required=False).clean`:
the empty string is an empty value, cleaning to `None` with all validators
skipped; otherwise `to_python` must parse and the min/max validators must both
pass (Django collects all failures; any failure invalidates the field).
`some (some v)` = cleaned integer, `some none` = cleaned `None`,
`none` = field error. -/
def cleanIntField (s : String) (lo : Int) (hi : Option Int) :
    Option (Option Int) :=
  if s = "" then some none
  else
    match pyIntParse s with
    | none => none
    | some v =>
        if decide (v < lo) ||
            (match hi with | some h => decide (h < v) | none => false) then
          none
        else some (some v)

/-- A character allowed by the `^[A-Za-z\s-]+$` validator on `name` (Python
`\s` on the ASCII data the model stores: the same six whitespace characters
as `str.strip`). -/
def statsNameChar (c : Char) : Bool := c.isAlpha || isPyWs c || c == '-'

/-- The `name` field of `StatsQueryForm` plus `clean_name`: the field is
`CharField(required=False, max_length=100, strip=True, validators=[...])`, so
an empty (stripped) value cleans to `""` with validators skipped and
`clean_name` turns it into `None`; a nonempty value must have at most 100
characters, match `^[A-Za-z\s-]+$` (`re.search` with both anchors on a
stripped value is a full match), and contain at least one letter
(`clean_name`).  The argument is already stripped: the view pre-strips it and
`strip=True` re-strips the same six characters (`pyStrip` is idempotent). -/
def cleanNameField (s : String) : Option (Option String) :=
  if s = "" then some none
  else if 100 < s.length then none
  else if !(s.data.all statsNameChar) then none
  else if !(s.data.any Char.isAlpha) then none
  else some (some s)

/-- `validators.parse_stats_query` with `default_page=1`,
`default_per_page=10` (the values the view passes).  The data dict takes
`request.GET.get("page", 1)` and `request.GET.get("per_page", 10)` — absent
parameters become the integer defaults, which the field stringifies — and
`request.GET.get("name", "").strip()`.  `form.is_valid()` is the conjunction
of the three field cleanings; on failure the function raises
`ValidationError` (`.error ()` here), which the view maps to HTTP 400.
Finally `cleaned_data.get("page") or default_page` replaces a cleaned `None`
by the default (a cleaned falsy `0` is impossible: `min_value=1`). -/
def parse_stats_query (pageRaw perRaw nameRaw : Option String) :
    Except Unit (Int × Int × Option String) :=
  match cleanIntField (pageRaw.getD "1") 1 none,
        cleanIntField (perRaw.getD "10") 1 (some 100),
        cleanNameField (pyStrip (nameRaw.getD "")) with
  | some p, some pp, some nm => .ok (p.getD 1, pp.getD 10, nm)
  | _, _, _ => .error ()

/-- What the `stats` view caches under a key: the `regions` list and the
`meta` dict — nothing else, in particular no execution time. -/
structure StatsPayload where
  regions : List RegionStat
  meta : PageMeta
deriving DecidableEq

/-- The Django cache, entries `(key, payload, stored_at)`.  `cache.set(...,
timeout=300)` records the store time; `cache.get` returns the payload only
while the 5-minute TTL has not expired. -/
abbrev StatsCache : Type := List (String × StatsPayload × Nat)

def cache_get (c : StatsCache) (k : String) (now : Nat) : Option StatsPayload :=
  match c.find? fun e => e.1 == k with
  | some (_, p, t) => if now < t + 300 then some p else none
  | none => none

def cache_set (c : StatsCache) (k : String) (p : StatsPayload) (now : Nat) :
    StatsCache :=
  (k, p, now) :: c.filter fun e => !(e.1 == k)

/-- The cache key of the view: `"region_stats:" +
md5(f"{page}:{per_page}:{name_filter or ''}").hexdigest()`.  The md5
hexdigest is injective on these key sources in practice and is modelled as
the identity encoding of the source string. -/
def stats_cache_key (page per_page : Int) (nf : Option String) : String :=
  "region_stats:" ++ toString page ++ ":" ++ toString per_page ++ ":" ++
    nf.getD ""

/-- The `cached` dict the view builds on a miss: the served page of the
aggregated rows, and its metadata. -/
def statsPayload (store : Store) (page per_page : Int) (nf : Option String) :
    StatsPayload :=
  let qs := get_region_stats store nf
  let pres := paginate_queryset qs page per_page.toNat
  { regions := pres.1,
    meta := page_meta qs.length pres.2 (num_pages qs.length per_page.toNat)
      per_page.toNat }

/-- The two responses of the `stats` view: `JsonResponse({"error": ...},
status=400)` when `parse_stats_query` raises, else the payload together with
the always-fresh `execution_time_ms`. -/
inductive StatsResponse where
  | badRequest : StatsResponse
  | ok : List RegionStat → PageMeta → Nat → StatsResponse
deriving DecidableEq

/-- `views.stats`.  `now` is the clock at the request; `execMs` is this call's
measured `round((time.time() - start_time) * 1000, 3)` — a fresh input of
each call, attached to the response after the cache step and never stored in
the cache.  On a cache hit the cached `regions`/`meta` are reused verbatim;
on a miss the payload is computed, stored with a 300-second timeout, and
returned. -/
def stats (store : Store) (c : StatsCache) (now execMs : Nat)
    (pageRaw perRaw nameRaw : Option String) : StatsResponse × StatsCache :=
  match parse_stats_query pageRaw perRaw nameRaw with
  | .error _ => (.badRequest, c)
  | .ok (page, per_page, nf) =>
      let key := stats_cache_key page per_page nf
      match cache_get c key now with
      | some p => (.ok p.regions p.meta execMs, c)
      | none =>
          let payload := statsPayload store page per_page nf
          (.ok payload.regions payload.meta execMs, cache_set c key payload now)

/-! ## Claim C3 -/

/-- C3 counterexample: requesting page `0` is NOT served as page 1 — the
form's `IntegerField(min_value=1)` rejects it and the view answers with the
400 response (the repository's own test asserts this), while the same request
with page `1` succeeds. -/
theorem c3_counterexample :
    (stats testlandStore [] 0 7 (some "0") none none).1 =
      StatsResponse.badRequest ∧
    (stats testlandStore [] 0 7 (some "1") none none).1 ≠
      StatsResponse.badRequest := by
  decide

/-- A nonempty page parameter that does not parse as an integer, or parses
below `min_value=1`, fails the form. -/
theorem parse_page_err (s : String) (perRaw nameRaw : Option String)
    (hne : s ≠ "")
    (hbad : pyIntParse s = none ∨ ∃ v, pyIntParse s = some v ∧ v < 1) :
    parse_stats_query (some s) perRaw nameRaw = .error () := by
  have hfield : cleanIntField s 1 none = none := by
    unfold cleanIntField
    rw [if_neg hne]
    rcases hbad with h | ⟨v, hv, hlt⟩
    · simp [h]
    · simp [hv, hlt]
  simp only [parse_stats_query, Option.getD_some, hfield]

/-- A per_page parameter parsing outside `[min_value, max_value] = [1, 100]`
fails the form, whatever the page parameter is. -/
theorem parse_per_err (s : String) (pageRaw nameRaw : Option String)
    (hbad : ∃ v, pyIntParse s = some v ∧ (v < 1 ∨ 100 < v)) :
    parse_stats_query pageRaw (some s) nameRaw = .error () := by
  obtain ⟨v, hv, hout⟩ := hbad
  have hne : s ≠ "" := by
    intro h
    rw [h, show pyIntParse "" = none from rfl] at hv
    cases hv
  have hfield : cleanIntField s 1 (some 100) = none := by
    unfold cleanIntField
    rw [if_neg hne]
    rcases hout with h | h
    · simp [hv, h]
    · simp [hv, h]
  rcases pageRaw with _ | ps
  · simp only [parse_stats_query, Option.getD_some, Option.getD_none, hfield]
    rcases cleanIntField "1" 1 none with _ | p <;> rfl
  · simp only [parse_stats_query, Option.getD_some, hfield]
    rcases cleanIntField ps 1 none with _ | p <;> rfl

/-- A validated page beyond `total_pages` is served as the last page: the
response carries the last page's slice and its metadata reports
`page = total_pages`. -/
theorem stats_clamps_to_last_page (store : Store) (c : StatsCache)
    (now ms : Nat) (pageRaw perRaw nameRaw : Option String)
    (page pp : Int) (nf : Option String)
    (hparse : parse_stats_query pageRaw perRaw nameRaw = .ok (page, pp, nf))
    (hmiss : cache_get c (stats_cache_key page pp nf) now = none)
    (hgt : (num_pages (get_region_stats store nf).length pp.toNat : Int) <
      page) :
    (stats store c now ms pageRaw perRaw nameRaw).1 =
      .ok (((get_region_stats store nf).drop
            ((num_pages (get_region_stats store nf).length pp.toNat - 1) *
              pp.toNat)).take pp.toNat)
        (page_meta (get_region_stats store nf).length
          (num_pages (get_region_stats store nf).length pp.toNat)
          (num_pages (get_region_stats store nf).length pp.toNat) pp.toNat)
        ms := by
  simp only [stats, hparse, hmiss, statsPayload, paginate_queryset]
  rw [if_pos (Or.inr hgt)]

/-- C3 (amended): the read endpoint DOES fail on bad page input — a nonempty
page parameter that is non-numeric or parses below 1 is a 400-equivalent
response (contradicting the claimed clamp to page 1), a per_page outside
[1, 100] is likewise a 400 and never silently clamped, and a validated page
beyond total_pages is served as the last page, with the metadata reporting
that last page number. -/
theorem c3_pagination_contract :
    (∀ (store : Store) (c : StatsCache) (now ms : Nat) (s : String)
        (perRaw nameRaw : Option String), s ≠ "" →
        (pyIntParse s = none ∨ ∃ v, pyIntParse s = some v ∧ v < 1) →
        (stats store c now ms (some s) perRaw nameRaw).1 =
          StatsResponse.badRequest) ∧
    (∀ (store : Store) (c : StatsCache) (now ms : Nat)
        (pageRaw : Option String) (s : String) (nameRaw : Option String),
        (∃ v, pyIntParse s = some v ∧ (v < 1 ∨ 100 < v)) →
        (stats store c now ms pageRaw (some s) nameRaw).1 =
          StatsResponse.badRequest) ∧
    (∀ (store : Store) (c : StatsCache) (now ms : Nat)
        (pageRaw perRaw nameRaw : Option String) (page pp : Int)
        (nf : Option String),
        parse_stats_query pageRaw perRaw nameRaw = .ok (page, pp, nf) →
        cache_get c (stats_cache_key page pp nf) now = none →
        (num_pages (get_region_stats store nf).length pp.toNat : Int) <
          page →
        (stats store c now ms pageRaw perRaw nameRaw).1 =
          .ok (((get_region_stats store nf).drop
                ((num_pages (get_region_stats store nf).length pp.toNat - 1) *
                  pp.toNat)).take pp.toNat)
            (page_meta (get_region_stats store nf).length
              (num_pages (get_region_stats store nf).length pp.toNat)
              (num_pages (get_region_stats store nf).length pp.toNat)
              pp.toNat)
            ms) := by
  refine ⟨fun store c now ms s perRaw nameRaw hne hbad => ?_,
    fun store c now ms pageRaw s nameRaw hbad => ?_,
    fun store c now ms pageRaw perRaw nameRaw page pp nf h1 h2 h3 =>
      stats_clamps_to_last_page store c now ms pageRaw perRaw nameRaw page pp
        nf h1 h2 h3⟩
  · simp only [stats, parse_page_err s perRaw nameRaw hne hbad]
  · simp only [stats, parse_per_err s pageRaw nameRaw hbad]

/-- C3 witness: page `"abc"` and per_page `"101"` each give the 400 response,
and page `"5"` of a one-page result is served as that last page. -/
theorem c3_witness :
    (stats testlandStore [] 0 3 (some "abc") none none).1 =
      StatsResponse.badRequest ∧
    (stats testlandStore [] 0 3 none (some "101") none).1 =
      StatsResponse.badRequest ∧
    (stats testlandStore [] 0 3 (some "5") none none).1 =
      .ok (((get_region_stats testlandStore none).drop
            ((num_pages (get_region_stats testlandStore none).length
              (10 : Int).toNat - 1) * (10 : Int).toNat)).take
          (10 : Int).toNat)
        (page_meta (get_region_stats testlandStore none).length
          (num_pages (get_region_stats testlandStore none).length
            (10 : Int).toNat)
          (num_pages (get_region_stats testlandStore none).length
            (10 : Int).toNat) (10 : Int).toNat)
        3 :=
  ⟨c3_pagination_contract.1 testlandStore [] 0 3 "abc" none none (by decide)
    (Or.inl (by decide)),
   c3_pagination_contract.2.1 testlandStore [] 0 3 none "101" none
    ⟨101, by decide, Or.inr (by decide)⟩,
   c3_pagination_contract.2.2 testlandStore [] 0 3 (some "5") none none 5 10
    none rfl rfl (by decide)⟩

/-! ## Claim C7 -/

/-- `cache.get` right after `cache.set` of the same key, within the
300-second timeout, returns the stored payload. -/
theorem cache_get_set (c : StatsCache) (k : String) (p : StatsPayload)
    (t1 t2 : Nat) (h : t2 < t1 + 300) :
    cache_get (cache_set c k p t1) k t2 = some p := by
  simp [cache_get, cache_set, List.find?, h]

/-- C7: two calls to the stats endpoint with the same query parameters within
the 5-minute TTL (the first a cache miss, no intervening invalidation): the
first call stores and returns some `regions`/`meta`; the second call returns
exactly those cached `regions` and `meta`, verbatim, with its own fresh
`execution_time_ms` (`ms2`, while the first reported `ms1`) and leaves the
cache untouched; and the cached entry holds precisely the
`regions`/`meta` payload — execution time is never stored in it. -/
theorem c7_cache_hit_reuses_payload (store : Store) (c : StatsCache)
    (now1 now2 ms1 ms2 : Nat) (pageRaw perRaw nameRaw : Option String)
    (page pp : Int) (nf : Option String)
    (hparse : parse_stats_query pageRaw perRaw nameRaw = .ok (page, pp, nf))
    (hmiss : cache_get c (stats_cache_key page pp nf) now1 = none)
    (hwin : now2 < now1 + 300) :
    ∃ regs meta,
      (stats store c now1 ms1 pageRaw perRaw nameRaw).1 = .ok regs meta ms1 ∧
      (stats store (stats store c now1 ms1 pageRaw perRaw nameRaw).2 now2 ms2
          pageRaw perRaw nameRaw).1 = .ok regs meta ms2 ∧
      (stats store (stats store c now1 ms1 pageRaw perRaw nameRaw).2 now2 ms2
          pageRaw perRaw nameRaw).2 =
        (stats store c now1 ms1 pageRaw perRaw nameRaw).2 ∧
      cache_get (stats store c now1 ms1 pageRaw perRaw nameRaw).2
          (stats_cache_key page pp nf) now2 =
        some { regions := regs, meta := meta } := by
  have hfirst : stats store c now1 ms1 pageRaw perRaw nameRaw =
      (.ok (statsPayload store page pp nf).regions
        (statsPayload store page pp nf).meta ms1,
       cache_set c (stats_cache_key page pp nf)
        (statsPayload store page pp nf) now1) := by
    simp only [stats, hparse, hmiss]
  have hget : cache_get
      (cache_set c (stats_cache_key page pp nf)
        (statsPayload store page pp nf) now1)
      (stats_cache_key page pp nf) now2 =
        some (statsPayload store page pp nf) :=
    cache_get_set c (stats_cache_key page pp nf)
      (statsPayload store page pp nf) now1 now2 hwin
  refine ⟨(statsPayload store page pp nf).regions,
    (statsPayload store page pp nf).meta, ?_, ?_, ?_, ?_⟩
  · rw [hfirst]
  · rw [hfirst]
    simp only [stats, hparse, hget]
  · rw [hfirst]
    simp only [stats, hparse, hget]
  · rw [hfirst]
    exact hget

/-- C7 witness: default query on `testlandStore`, first call at time 0 with
measured 7 ms, second at time 250 with measured 9 ms. -/
theorem c7_witness :
    ∃ regs meta,
      (stats testlandStore [] 0 7 none none none).1 = .ok regs meta 7 ∧
      (stats testlandStore (stats testlandStore [] 0 7 none none none).2 250 9
          none none none).1 = .ok regs meta 9 ∧
      (stats testlandStore (stats testlandStore [] 0 7 none none none).2 250 9
          none none none).2 = (stats testlandStore [] 0 7 none none none).2 ∧
      cache_get (stats testlandStore [] 0 7 none none none).2
          (stats_cache_key 1 10 none) 250 =
        some { regions := regs, meta := meta } :=
  c7_cache_hit_reuses_payload testlandStore [] 0 250 7 9 none none none 1 10
    none rfl rfl (by decide)
